import Mathlib

/-!
# Portfolio page script (`src/script.js`): a shallow embedding

The script is modelled section by section.  The line network of the hero
scene, whose threshold test depends on rounding, is modelled in binary64
arithmetic (`Binary64`: every operation is the exact result rounded to nearest,
ties to even).  Elsewhere JavaScript numbers are modelled as exact rationals
(`ℚ`): every finite binary64 value is a rational, and rounding of intermediate
results is outside the model there.  `NaN` and the infinities are added where
the code can meet them (`JSNum`).  Host objects (the DOM, the intersection
observers, the frame queue, local storage, the 2D canvas) are modelled as
explicit state.
-/

namespace Portfolio

/-! ## 0. Utility -/

/-- The utility `const clamp = (v, lo, hi) => Math.min(hi, Math.max(lo, v));` -/
def clamp (v lo hi : ℚ) : ℚ := min hi (max lo v)

/-! ## Binary64 arithmetic -/

/-- A finite binary64 number, written as `mant * 2 ^ exp`. -/
structure Binary64 where
  mant : Int
  exp : Int
  deriving DecidableEq, Repr

/-- The rational value of the number. -/
def Binary64.toRat (d : Binary64) : ℚ := (d.mant : ℚ) * (2 : ℚ) ^ d.exp

/-- The mantissa of the number written with the smaller exponent `e`. -/
def Binary64.shiftTo (d : Binary64) (e : Int) : Int := d.mant * 2 ^ (d.exp - e).toNat

/-- The exact difference of two numbers, before rounding. -/
def Binary64.exactSub (a b : Binary64) : Binary64 :=
  ⟨a.shiftTo (min a.exp b.exp) - b.shiftTo (min a.exp b.exp), min a.exp b.exp⟩

/-- The exact sum of two numbers, before rounding. -/
def Binary64.exactAdd (a b : Binary64) : Binary64 :=
  ⟨a.shiftTo (min a.exp b.exp) + b.shiftTo (min a.exp b.exp), min a.exp b.exp⟩

/-- The exact product of two numbers, before rounding. -/
def Binary64.exactMul (a b : Binary64) : Binary64 :=
  ⟨a.mant * b.mant, a.exp + b.exp⟩

/-- The position of the leading bit of `n`, with `fuel` steps allowed. -/
def floorLog2Aux : Nat → Nat → Nat
  | 0, _ => 0
  | fuel + 1, n => if n < 2 then 0 else floorLog2Aux fuel (n / 2) + 1

/-- The position of the leading bit of `n`: the largest `k` with `2 ^ k ≤ n`
(0 for `n = 0`). -/
def floorLog2 (n : Nat) : Nat := floorLog2Aux n n

/-- Rounding to binary64, to nearest with ties to even, of the magnitude
`(n + δ) * 2 ^ e`, where `δ = 0` without `sticky` and `0 < δ < 1` with it (then
`n` has more than 53 bits).  The last kept bit has exponent `q`: 52 below the
leading bit, and not below `-1074` (subnormal numbers).  The result is `none`
when the rounded magnitude reaches `2 ^ 1024` (overflow to an infinity). -/
def roundSticky (neg : Bool) (n : Nat) (e : Int) (sticky : Bool) : Option Binary64 :=
  if n = 0 then some ⟨0, 0⟩
  else
    let top : Int := e + (floorLog2 n : Int)
    let q : Int := max (top - 52) (-1074)
    if q ≤ e then
      if 1024 ≤ top then none else some ⟨if neg then -(n : Int) else (n : Int), e⟩
    else
      let s : Nat := (q - e).toNat
      let hi : Nat := n / 2 ^ s
      let lo : Nat := n % 2 ^ s
      let half : Nat := 2 ^ (s - 1)
      let up : Bool := decide (half < lo) || (decide (lo = half) && (sticky || decide (hi % 2 = 1)))
      let m : Nat := if up then hi + 1 else hi
      if m ≠ 0 ∧ 1024 ≤ q + (floorLog2 m : Int) then none
      else some ⟨if neg then -(m : Int) else (m : Int), q⟩

/-- Rounding of an exact result to binary64. -/
def Binary64.round (d : Binary64) : Option Binary64 :=
  roundSticky (decide (d.mant < 0)) d.mant.natAbs d.exp false

/-- The digits of the integer square root below bit `k`, added to `r`. -/
def isqrtAux (n : Nat) : Nat → Nat → Nat
  | 0, r => r
  | k + 1, r => if (r + 2 ^ k) * (r + 2 ^ k) ≤ n then isqrtAux n k (r + 2 ^ k) else isqrtAux n k r

/-- The integer square root: the largest `r` with `r * r ≤ n`. -/
def isqrt (n : Nat) : Nat := isqrtAux n (floorLog2 n / 2 + 1) 0

/-- The function `Math.sqrt` on a finite number: the square root rounded to
binary64; `none` for a negative argument (`NaN`). -/
def Binary64.sqrt (d : Binary64) : Option Binary64 :=
  if d.mant < 0 then none
  else if d.mant = 0 then some ⟨0, 0⟩
  else
    let t : Nat := if d.exp % 2 = 0 then 110 else 111
    let n : Nat := d.mant.toNat * 2 ^ t
    roundSticky false (isqrt n) ((d.exp - t) / 2) (decide (isqrt n * isqrt n ≠ n))

/-- The comparison `a < b` of two finite numbers. -/
def Binary64.lt (a b : Binary64) : Bool :=
  decide (a.shiftTo (min a.exp b.exp) < b.shiftTo (min a.exp b.exp))

/-- The integer `n` as a binary64 number (exact for `|n| < 2 ^ 53`). -/
def Binary64.ofInt (n : Int) : Binary64 := ⟨n, 0⟩

/-! ## 2. Hero scene: the line network -/

/-- A `THREE.Vector3` with finite coordinates. -/
structure Vector3 where
  x : Binary64
  y : Binary64
  z : Binary64
  deriving DecidableEq, Repr

/-- The method `Vector3.distanceToSquared` of three.js,
`dx * dx + dy * dy + dz * dz` with `dx = this.x - v.x` and so on, every
operation rounded to binary64, the sum taken from the left.  The result is
`none` when an operation overflows (the value is then `Infinity`). -/
def distanceToSquared (a b : Vector3) : Option Binary64 :=
  ((a.x.exactSub b.x).round).bind fun dx =>
  ((a.y.exactSub b.y).round).bind fun dy =>
  ((a.z.exactSub b.z).round).bind fun dz =>
  ((dx.exactMul dx).round).bind fun xx =>
  ((dy.exactMul dy).round).bind fun yy =>
  ((dz.exactMul dz).round).bind fun zz =>
  ((xx.exactAdd yy).round).bind fun s =>
  (s.exactAdd zz).round

/-- The method `Vector3.distanceTo` of three.js:
`Math.sqrt(this.distanceToSquared(v))`; `none` stands for `Infinity`. -/
def distanceTo (a b : Vector3) : Option Binary64 :=
  (distanceToSquared a b).bind Binary64.sqrt

/-- The test `a.distanceTo(b) < r`; it fails when the distance is `Infinity`. -/
def distanceToLt (a b : Vector3) (r : Binary64) : Bool :=
  match distanceTo a b with
  | some d => d.lt r
  | none => false

/-- The exact squared Euclidean distance of two points, without any rounding. -/
def exactDistanceSquared (a b : Vector3) : ℚ :=
  (a.x.toRat - b.x.toRat) ^ 2 + (a.y.toRat - b.y.toRat) ^ 2 + (a.z.toRat - b.z.toRat) ^ 2

/-- State of the nested loop of lines 99-107: `lineVerts` is the array of the
source; `tested` logs, in order, the index pairs at which the `if` of line 102
is evaluated. -/
structure LineState where
  lineVerts : List Binary64
  tested : List (Nat × Nat)
  deriving DecidableEq, Repr

/-- The read `lineNodes[i]`; the loops only read indices below `lineNodes.length`. -/
def nodeAt (lineNodes : List Vector3) (i : Nat) : Vector3 :=
  lineNodes.getD i ⟨⟨0, 0⟩, ⟨0, 0⟩, ⟨0, 0⟩⟩

/-- The six numbers pushed by lines 103-104 for the pair `(i, j)`. -/
def segment (lineNodes : List Vector3) (ij : Nat × Nat) : List Binary64 :=
  [(nodeAt lineNodes ij.1).x, (nodeAt lineNodes ij.1).y, (nodeAt lineNodes ij.1).z,
   (nodeAt lineNodes ij.2).x, (nodeAt lineNodes ij.2).y, (nodeAt lineNodes ij.2).z]

/-- Body of the inner loop (lines 102-105) at indices `i`, `j`. -/
def lineBody (lineNodes : List Vector3) (i : Nat) (st : LineState) (j : Nat) : LineState :=
  if distanceToLt (nodeAt lineNodes i) (nodeAt lineNodes j) (Binary64.ofInt 14) then
    { lineVerts := st.lineVerts ++ segment lineNodes (i, j), tested := st.tested ++ [(i, j)] }
  else
    { st with tested := st.tested ++ [(i, j)] }

/-- The inner loop `for (let j = i + 1; j < lineNodes.length; j++)`. -/
def lineInner (lineNodes : List Vector3) (st : LineState) (i : Nat) : LineState :=
  (List.range' (i + 1) (lineNodes.length - (i + 1))).foldl (lineBody lineNodes i) st

/-- The outer loop `for (let i = 0; i < lineNodes.length; i++)`, started with
`lineVerts = []`. -/
def lineNetwork (lineNodes : List Vector3) : LineState :=
  (List.range lineNodes.length).foldl (lineInner lineNodes) ⟨[], []⟩

/-- The expression `(Math.random() - 0.5) * size` of lines 93-95 in binary64.
For a value of `Math.random()`, which lies in `[0, 1)`, neither operation
overflows, so the fallback 0 is not used. -/
def centred (random : Binary64) (size : Int) : Binary64 :=
  (((random.exactSub ⟨1, -1⟩).round).bind fun d =>
    (d.exactMul (Binary64.ofInt size)).round).getD ⟨0, 0⟩

/-- Lines 90-97: the node list is built from a stream of `Math.random()` values,
three per node, `count` nodes (60 in the source). -/
def makeLineNodes (random : Nat → Binary64) (count : Nat) : List Vector3 :=
  (List.range count).map fun i =>
    ⟨centred (random (3 * i)) 60, centred (random (3 * i + 1)) 45,
     centred (random (3 * i + 2)) 30⟩

/-- All index pairs `(i, j)` with `i < j < n` in lexicographic order, written
from the specification's words ("all C(N,2) pairs"). -/
def allPairs (n : Nat) : List (Nat × Nat) :=
  (List.range n).flatMap fun i => ((List.range n).filter fun j => i < j).map fun j => (i, j)

/-- The pair `(i, j)` passes the threshold test of line 102. -/
def nearPair (lineNodes : List Vector3) (ij : Nat × Nat) : Bool :=
  distanceToLt (nodeAt lineNodes ij.1) (nodeAt lineNodes ij.2) (Binary64.ofInt 14)

/-- The pairs visited by the inner loop at row `i`. -/
def rowPairs (n i : Nat) : List (Nat × Nat) :=
  (List.range' (i + 1) (n - (i + 1))).map fun j => (i, j)

/-- Strict lexicographic order on index pairs. -/
def lexLt (p q : Nat × Nat) : Prop := p.1 < q.1 ∨ (p.1 = q.1 ∧ p.2 < q.2)

/-- The point `(0, 0, 0)`. -/
def originNode : Vector3 := ⟨⟨0, 0⟩, ⟨0, 0⟩, ⟨0, 0⟩⟩

/-- The point `(1, 0, 0)`. -/
def unitNode : Vector3 := ⟨⟨1, 0⟩, ⟨0, 0⟩, ⟨0, 0⟩⟩

/-- The point `(20, 0, 0)`. -/
def awayNode : Vector3 := ⟨⟨20, 0⟩, ⟨0, 0⟩, ⟨0, 0⟩⟩

/-- The binary64 point
`(-9.652352333068848, -9.652676060795784, 3.107722526809683)`: its exact
distance from the origin is above 14, its computed distance below. -/
def farNode : Vector3 :=
  ⟨⟨-5433791296307200, -49⟩, ⟨-5433973538816000, -49⟩, ⟨6997969006855492, -51⟩⟩

/-- The binary64 point
`(2.649669647216797, 9.917621612548828, 9.51945546294127)`: its exact distance
from the origin is below 14, its computed distance is 14. -/
def nearNode : Vector3 :=
  ⟨⟨5966525617930240, -51⟩, ⟨5583124624834560, -49⟩, ⟨5358977009459042, -49⟩⟩

/-! ## JavaScript numbers and the built-ins the script calls -/

/-- A JavaScript number: `NaN`, the two infinities, or a finite value. -/
inductive JSNum where
  | nan
  | posInf
  | negInf
  | fin (q : ℚ)
  deriving DecidableEq, Repr

/-- The product `e * t` of a finite number `e` and a number `t`. -/
def JSNum.scale (e : ℚ) : JSNum → JSNum
  | .nan => .nan
  | .fin q => .fin (e * q)
  | .posInf => if e = 0 then .nan else if 0 < e then .posInf else .negInf
  | .negInf => if e = 0 then .nan else if 0 < e then .negInf else .posInf

/-- White space and line terminators skipped by `parseFloat` and `parseInt`. -/
def isWhiteSpace (c : Char) : Bool :=
  c.toNat ∈ [0x09, 0x0A, 0x0B, 0x0C, 0x0D, 0x20, 0xA0, 0x1680, 0x2000, 0x2001, 0x2002, 0x2003,
    0x2004, 0x2005, 0x2006, 0x2007, 0x2008, 0x2009, 0x200A, 0x2028, 0x2029, 0x202F, 0x205F,
    0x3000, 0xFEFF]

/-- Value of a hexadecimal digit, `none` for any other character. -/
def hexDigit (c : Char) : Option Nat :=
  if c.isDigit then some (c.toNat - '0'.toNat)
  else if 'a'.toNat ≤ c.toNat ∧ c.toNat ≤ 'f'.toNat then some (c.toNat - 'a'.toNat + 10)
  else if 'A'.toNat ≤ c.toNat ∧ c.toNat ≤ 'F'.toNat then some (c.toNat - 'A'.toNat + 10)
  else none

/-- The number written by a run of digits in the given radix. -/
def digitsValue (radix : Nat) (cs : List Char) : Nat :=
  cs.foldl (fun acc c => acc * radix + (hexDigit c).getD 0) 0

/-- An optional leading sign: whether it is `-`, and the rest. -/
def takeSign : List Char → Bool × List Char
  | '-' :: r => (true, r)
  | '+' :: r => (false, r)
  | cs => (false, cs)

/-- The exponent part that may follow the mantissa of a decimal literal: its
value when `e` or `E`, an optional sign and at least one digit follow, and 0
otherwise (the literal then ends before the `e`). -/
def exponentPart : List Char → Int
  | c :: r =>
    if c = 'e' ∨ c = 'E' then
      let ed := (takeSign r).2.takeWhile Char.isDigit
      if ed = [] then 0
      else if (takeSign r).1 then -(digitsValue 10 ed : Int) else (digitsValue 10 ed : Int)
    else 0
  | [] => 0

/-- The built-in `parseFloat`: skips leading white space and reads the longest
prefix that is a decimal literal (`Infinity`, or digits with an optional
fraction and exponent, with an optional sign); `NaN` when there is none.  The
value is the exact decimal value of the literal: the built-in rounds it to
binary64 (to an infinity when it is too large), which is outside this model. -/
def parseFloat (s : String) : JSNum :=
  let cs := s.toList.dropWhile isWhiteSpace
  let neg := (takeSign cs).1
  let body := (takeSign cs).2
  if "Infinity".toList.isPrefixOf body then (if neg then .negInf else .posInf)
  else
    let ip := body.takeWhile Char.isDigit
    let r1 := body.dropWhile Char.isDigit
    let fp := match r1 with
      | '.' :: r => r.takeWhile Char.isDigit
      | _ => []
    let r2 := match r1 with
      | '.' :: r => r.dropWhile Char.isDigit
      | _ => r1
    if ip = [] ∧ fp = [] then .nan
    else
      let mant : ℚ := (digitsValue 10 ip : ℚ) + (digitsValue 10 fp : ℚ) / (10 : ℚ) ^ fp.length
      let v : ℚ := mant * (10 : ℚ) ^ exponentPart r2
      .fin (if neg then -v else v)

/-- The built-in `parseInt` called with one argument: skips leading white
space, reads an optional sign, an optional `0x`/`0X` (radix 16, otherwise 10)
and the longest run of digits of the radix; `NaN` when the run is empty. -/
def parseInt (s : String) : JSNum :=
  let cs := s.toList.dropWhile isWhiteSpace
  let neg := (takeSign cs).1
  let body := (takeSign cs).2
  let hex : Bool := match body with
    | '0' :: x :: _ => x = 'x' ∨ x = 'X'
    | _ => false
  let radix : Nat := if hex then 16 else 10
  let ds := (if hex then body.drop 2 else body).takeWhile fun c =>
    match hexDigit c with
    | some d => d < radix
    | none => false
  if ds = [] then .nan
  else .fin (if neg then -(digitsValue radix ds : ℚ) else (digitsValue radix ds : ℚ))

/-- The operation `ToIntegerOrInfinity` restricted to the range `toFixed` accepts: the
argument truncated towards zero (0 for `NaN`) when that lies in `0..100`, and
`none` when `toFixed` throws a `RangeError`. -/
def fractionDigits : JSNum → Option Nat
  | .nan => some 0
  | .posInf => none
  | .negInf => none
  | .fin q =>
    let f : Int := if 0 ≤ q then ⌊q⌋ else ⌈q⌉
    if 0 ≤ f ∧ f ≤ 100 then some f.toNat else none

/-- The digit string of `toFixed` for the rounded integer `n` and `f` fraction
digits: the decimal digits of `n`, padded on the left with zeros to `f + 1`
characters, with a point before the last `f` characters. -/
def fixedDigits (n f : Nat) : String :=
  let m := (Nat.repr n).toList
  if f = 0 then String.mk m
  else
    let m := if m.length ≤ f then List.replicate (f + 1 - m.length) '0' ++ m else m
    String.mk (m.take (m.length - f) ++ '.' :: m.drop (m.length - f))

/-- The built-in `Number.prototype.toFixed`; `none` stands for a thrown
`RangeError`.  Non-finite values print as `NaN`, `Infinity`, `-Infinity`.  A
finite `x` is rounded to the nearest multiple of `10^-f`, the larger one on a
tie, after its sign is split off.  For `|x| ≥ 10^21` the standard returns the
general number-to-string conversion, which depends on the binary64
representation and is taken as the parameter `numberToString`. -/
def toFixed (numberToString : ℚ → String) (x : JSNum) (digits : JSNum) : Option String :=
  match fractionDigits digits with
  | none => none
  | some f =>
    match x with
    | .nan => some "NaN"
    | .posInf => some "Infinity"
    | .negInf => some "-Infinity"
    | .fin q =>
      let s := if q < 0 then "-" else ""
      let a := |q|
      if (10 : ℚ) ^ 21 ≤ a then some (s ++ numberToString a)
      else some (s ++ fixedDigits ⌊a * (10 : ℚ) ^ f + 1 / 2⌋.toNat f)

/-- The constant `Math.PI`: the binary64 number nearest to π. -/
def MathPI : ℚ := 884279719003555 / 281474976710656

/-! ## The document and the page state -/

/-- A DOM element as the script reads it: `node` is its identity, the other
fields are the attributes the selectors and callbacks look at.
`skillItemVal` is `closest('.skill-item')?.dataset.val`. -/
structure Element where
  node : Nat
  tag : String
  id : Option String
  classes : List String
  href : Option String
  dataTarget : Option String
  dataDecimal : Option String
  skillItemVal : Option String
  deriving DecidableEq, Repr

/-- A call on the 2D canvas context. -/
inductive DrawOp where
  | clearRect (x y w h : ℚ)
  | beginPath
  | arc (cx cy radius startAngle endAngle : ℚ)
  | strokeStyle (s : String)
  | lineWidth (w : ℚ)
  | lineCap (s : String)
  | shadowColor (s : String)
  | shadowBlur (b : ℚ)
  | stroke
  deriving DecidableEq, Repr

/-- A write of the script to the document. -/
inductive DomWrite where
  | addClass (node : Nat) (cls : String)
  | setWidth (node : Nat) (width : String)
  | setText (node : Nat) (text : String)
  | draw (node : Nat) (ops : List DrawOp)
  deriving DecidableEq, Repr

/-- An entry of `configs` in `initRadialCharts`. -/
structure RadialConfig where
  id : String
  value : ℚ
  color : String
  deriving DecidableEq, Repr

/-- A callback waiting in the `requestAnimationFrame` queue: the closure `step`
of a radial chart (lines 371-376) or of a counter (lines 401-407) with the
variables it captured. -/
inductive FrameTask where
  | radialStep (canvas : Nat) (cfg : RadialConfig) (start : ℚ)
  | counterStep (el : Nat) (target : JSNum) (decimal : JSNum) (start : ℚ)
  deriving DecidableEq, Repr

/-- The state the script acts on.  The `…Observed` fields are the targets each
intersection observer still observes (for the radial charts, one observer per
chart, kept with its configuration); `writes` is the log of document writes in
order; `frameQueue` the callbacks requested for the next frame; `navItems` the
links the navbar toggles and `activeLinks` the elements of class `nav-link`
that carry the class `active`; `dataTheme`, `iconClass` and
`storage` the state of the theme toggle. -/
structure Page where
  navObserved : List Element
  revealObserved : List Element
  skillObserved : List Element
  radialObserved : List (RadialConfig × Element)
  counterObserved : List Element
  navItems : List Element
  activeLinks : List Element
  writes : List DomWrite
  frameQueue : List FrameTask
  dataTheme : Option String
  iconClass : String
  storage : List (String × String)
  deriving DecidableEq, Repr

/-- The page before any `init…` function has run, with the given local
storage; nav links that carry `active` in the markup are active. -/
def Page.initial (doc : List Element) (storage : List (String × String)) : Page :=
  { navObserved := [], revealObserved := [], skillObserved := [], radialObserved := [],
    counterObserved := [], navItems := [],
    activeLinks := doc.filter fun l => l.classes.contains "nav-link" && l.classes.contains "active",
    writes := [], frameQueue := [], dataTheme := none, iconClass := "", storage := storage }

/-- An `IntersectionObserverEntry`. -/
structure Entry where
  target : Element
  isIntersecting : Bool
  deriving DecidableEq, Repr

/-- The call `observer.unobserve(el)`. -/
def unobserve (observed : List Element) (el : Element) : List Element :=
  observed.filter fun x => x ≠ el

/-- The text last written to the element, `none` if the script never wrote it. -/
def textOf (pg : Page) (node : Nat) : Option String :=
  pg.writes.foldl (fun acc w =>
    match w with
    | .setText n t => if n = node then some t else acc
    | _ => acc) none

/-! ## 4. Navbar: the section observer (lines 250-259) -/

/-- The function `initNavbar`, the part of lines 229 and 250-259: `navItems` are the
elements of class `nav-link`, and every `section[id]` is observed. -/
def initNavbar (doc : List Element) (pg : Page) : Page :=
  { pg with
    navItems := doc.filter fun l => l.classes.contains "nav-link"
    navObserved := doc.filter fun s => s.tag = "section" && s.id.isSome }

/-- The callback of the section observer for one entry (lines 254-256): on an
intersecting entry every nav link gets or loses `active` according to whether
its `href` is `'#' + e.target.id`.  Nothing is unobserved. -/
def navEntry (pg : Page) (e : Entry) : Page :=
  if e.isIntersecting then
    { pg with
      activeLinks := pg.navItems.filter fun l => l.href = some ("#" ++ e.target.id.getD "") }
  else pg

/-! ## 6. Scroll reveal (lines 277-288) -/

/-- The function `initReveal`: every element of class `reveal` is observed. -/
def initReveal (doc : List Element) (pg : Page) : Page :=
  { pg with revealObserved := doc.filter fun el => el.classes.contains "reveal" }

/-- The callback of the reveal observer for one entry (lines 281-284). -/
def revealEntry (pg : Page) (e : Entry) : Page :=
  if e.isIntersecting then
    { pg with
      writes := pg.writes ++ [.addClass e.target.node "visible"]
      revealObserved := unobserve pg.revealObserved e.target }
  else pg

/-! ## 7. Skill bars (lines 293-306) -/

/-- The function `initSkillBars`: every element of class `skill-fill` is observed. -/
def initSkillBars (doc : List Element) (pg : Page) : Page :=
  { pg with skillObserved := doc.filter fun el => el.classes.contains "skill-fill" }

/-- The callback of the skill-bar observer for one entry (lines 297-302): the
width is written when `val` is a non-empty string. -/
def skillEntry (pg : Page) (e : Entry) : Page :=
  if e.isIntersecting then
    { pg with
      writes :=
        match e.target.skillItemVal with
        | some val => if val ≠ "" then pg.writes ++ [.setWidth e.target.node (val ++ "%")]
            else pg.writes
        | none => pg.writes
      skillObserved := unobserve pg.skillObserved e.target }
  else pg

/-! ## 8. Radial charts (lines 311-383) -/

/-- The `configs` table of lines 312-318. -/
def radialConfigs : List RadialConfig :=
  [⟨"radial-1", 90, "#38bdf8"⟩, ⟨"radial-2", 75, "#f59e0b"⟩, ⟨"radial-3", 80, "#fb7185"⟩,
   ⟨"radial-4", 78, "#a78bfa"⟩, ⟨"radial-5", 65, "#34d399"⟩]

/-- The call `document.getElementById`. -/
def getElementById (doc : List Element) (id : String) : Option Element :=
  doc.find? fun el => el.id = some id

/-- The function `initRadialCharts`: every configuration whose canvas exists gets an
observer of its own, observing that canvas. -/
def initRadialCharts (doc : List Element) (pg : Page) : Page :=
  { pg with
    radialObserved := radialConfigs.filterMap fun cfg =>
      (getElementById doc cfg.id).map fun canvas => (cfg, canvas) }

/-- The function `drawFrame(val)` of lines 338-362 for the chart `cfg`: the canvas calls in
order.  `size = 140`, `cx = cy = size / 2`, `radius = 52`,
`startAngle = -Math.PI / 2`. -/
def drawFrame (cfg : RadialConfig) (isDark : Bool) (val : ℚ) : List DrawOp :=
  [.clearRect 0 0 140 140,
   .beginPath,
   .arc (140 / 2) (140 / 2) 52 0 (MathPI * 2),
   .strokeStyle (if isDark then "rgba(255,255,255,.07)" else "rgba(0,0,0,.08)"),
   .lineWidth 7,
   .stroke,
   .beginPath,
   .arc (140 / 2) (140 / 2) 52 (-MathPI / 2) (-MathPI / 2 + val / 100 * MathPI * 2),
   .strokeStyle cfg.color,
   .lineWidth 7,
   .lineCap "round",
   .shadowColor cfg.color,
   .shadowBlur 12,
   .stroke,
   .shadowBlur 0]

/-- The angles of the `arc` calls of a frame, in order. -/
def arcAngles : List DrawOp → List (ℚ × ℚ)
  | [] => []
  | .arc _ _ _ a b :: ops => (a, b) :: arcAngles ops
  | _ :: ops => arcAngles ops

/-- The expression `clamp((now - start) / duration, 0, 1)` of lines 372 and 402. -/
def progress (now start duration : ℚ) : ℚ :=
  clamp ((now - start) / duration) 0 1

/-- The expression `1 - Math.pow(1 - p, 3)` of lines 373 and 403. -/
def eased (p : ℚ) : ℚ := 1 - (1 - p) ^ 3

/-- The closure `step(now)` of a radial chart (lines 371-376). -/
def radialStep (canvas : Nat) (cfg : RadialConfig) (start : ℚ) (now : ℚ) (pg : Page) : Page :=
  let progress := progress now start 1300
  let eased := eased progress
  let pg := { pg with
    writes := pg.writes ++
      [.draw canvas (drawFrame cfg (pg.dataTheme ≠ some "light") (eased * cfg.value))] }
  if progress < 1 then
    { pg with frameQueue := pg.frameQueue ++ [.radialStep canvas cfg start] }
  else pg

/-- The callback of a chart's observer for one entry (lines 367-378); `now` is
the value of `performance.now()`. -/
def radialEntry (cfg : RadialConfig) (canvas : Element) (now : ℚ) (pg : Page) (e : Entry) :
    Page :=
  if e.isIntersecting then
    { pg with
      radialObserved := pg.radialObserved.filter fun oc => oc ≠ (cfg, canvas)
      frameQueue := pg.frameQueue ++ [.radialStep canvas.node cfg now] }
  else pg

/-! ## 9. Counters (lines 388-412) -/

/-- The function `initCounters`: every element with a `data-target` attribute is observed. -/
def initCounters (doc : List Element) (pg : Page) : Page :=
  { pg with counterObserved := doc.filter fun el => el.dataTarget.isSome }

/-- The closure `step(now)` of a counter (lines 401-407).  A `RangeError`
thrown by `toFixed` ends the callback with the state as it is at that point. -/
def counterStep (numberToString : ℚ → String) (el : Nat) (target decimal : JSNum) (start : ℚ)
    (now : ℚ) (pg : Page) : Page :=
  let p := progress now start 1500
  let v := JSNum.scale (eased p) target
  match toFixed numberToString v decimal with
  | none => pg
  | some text =>
    let pg := { pg with writes := pg.writes ++ [.setText el text] }
    if p < 1 then
      { pg with frameQueue := pg.frameQueue ++ [.counterStep el target decimal start] }
    else
      match toFixed numberToString target decimal with
      | none => pg
      | some text => { pg with writes := pg.writes ++ [.setText el text] }

/-- The callback of the counter observer for one entry (lines 392-408).
`el.dataset.target` of an element without the attribute is `undefined`, which
`parseFloat` reads as the string `"undefined"`. -/
def counterEntry (now : ℚ) (pg : Page) (e : Entry) : Page :=
  if !e.isIntersecting then pg
  else
    let target := parseFloat (e.target.dataTarget.getD "undefined")
    let decimal := parseInt (e.target.dataDecimal.getD "0")
    { pg with
      counterObserved := unobserve pg.counterObserved e.target
      frameQueue := pg.frameQueue ++ [.counterStep e.target.node target decimal now] }

/-! ## 15. Theme toggle (lines 608-626) -/

/-- The call `localStorage.getItem`. -/
def getItem (storage : List (String × String)) (key : String) : Option String :=
  (storage.find? fun kv => kv.1 = key).map Prod.snd

/-- The call `localStorage.setItem`. -/
def setItem (storage : List (String × String)) (key value : String) : List (String × String) :=
  (key, value) :: storage.filter fun kv => kv.1 ≠ key

/-- The inner function `apply(theme)` of lines 614-618 (named `applyTheme`
here); `KEY` is `'ak-theme'`. -/
def applyTheme (theme : String) (pg : Page) : Page :=
  { pg with
    dataTheme := some theme
    iconClass := if theme = "dark" then "fas fa-sun" else "fas fa-moon"
    storage := setItem pg.storage "ak-theme" theme }

/-- The function `initThemeToggle`, lines 620-621: `localStorage.getItem(KEY) || 'dark'` is
applied (the empty string is falsy).  The toggle button and the icon are taken
to exist. -/
def initThemeToggle (pg : Page) : Page :=
  applyTheme
    (match getItem pg.storage "ak-theme" with
     | some saved => if saved = "" then "dark" else saved
     | none => "dark") pg

/-- The click handler of lines 623-625. -/
def themeClick (pg : Page) : Page :=
  applyTheme (if pg.dataTheme = some "dark" then "light" else "dark") pg

/-- A reload: a fresh page over the same document that keeps only the local
storage. -/
def reload (doc : List Element) (pg : Page) : Page :=
  Page.initial doc pg.storage

/-! ## The host: notifications and frames -/

/-- Which observer a notification comes from. -/
inductive ObserverKind where
  | nav
  | reveal
  | skill
  | radial
  | counter
  deriving DecidableEq, Repr

/-- What happens to the page: an observer reports one entry at time `now`, or
the host runs the frame callbacks with time stamp `now`. -/
inductive PageEvent where
  | notify (kind : ObserverKind) (e : Entry) (now : ℚ)
  | frame (now : ℚ)
  deriving DecidableEq, Repr

/-- Whether the observer of the given kind is observing the element. -/
def observes (pg : Page) : ObserverKind → Element → Bool
  | .nav, el => el ∈ pg.navObserved
  | .reveal, el => el ∈ pg.revealObserved
  | .skill, el => el ∈ pg.skillObserved
  | .radial, el => pg.radialObserved.any fun oc => oc.2 = el
  | .counter, el => el ∈ pg.counterObserved

/-- The host delivers an entry to an observer's callback only for a target the
observer is observing; entries are delivered one at a time (a batch of entries
for distinct targets is their sequence).  For the radial charts the entry goes
to every chart observer that observes the target. -/
def notify (pg : Page) (kind : ObserverKind) (e : Entry) (now : ℚ) : Page :=
  match kind with
  | .nav => if e.target ∈ pg.navObserved then navEntry pg e else pg
  | .reveal => if e.target ∈ pg.revealObserved then revealEntry pg e else pg
  | .skill => if e.target ∈ pg.skillObserved then skillEntry pg e else pg
  | .radial =>
    (pg.radialObserved.filter fun oc => oc.2 = e.target).foldl
      (fun p oc => radialEntry oc.1 oc.2 now p e) pg
  | .counter => if e.target ∈ pg.counterObserved then counterEntry now pg e else pg

/-- Runs one queued frame callback. -/
def runTask (numberToString : ℚ → String) (now : ℚ) (pg : Page) : FrameTask → Page
  | .radialStep canvas cfg start => radialStep canvas cfg start now pg
  | .counterStep el target decimal start =>
    counterStep numberToString el target decimal start now pg

/-- One animation frame: the host empties the queue and runs the callbacks that
were in it, in order, with time stamp `now`; what they request waits for the
next frame. -/
def runFrame (numberToString : ℚ → String) (now : ℚ) (pg : Page) : Page :=
  pg.frameQueue.foldl (runTask numberToString now) { pg with frameQueue := [] }

/-- One step of the page. -/
def pageStep (numberToString : ℚ → String) (pg : Page) : PageEvent → Page
  | .notify kind e now => notify pg kind e now
  | .frame now => runFrame numberToString now pg

/-- The page after a sequence of events. -/
def runEvents (numberToString : ℚ → String) (pg : Page) (evs : List PageEvent) : Page :=
  evs.foldl (pageStep numberToString) pg

/-- Whether the event triggers the element at the observer: an intersecting
entry for it, delivered while it is observed. -/
def triggers (pg : Page) (kind : ObserverKind) (el : Element) : PageEvent → Bool
  | .notify k e _ => k = kind && e.target = el && e.isIntersecting && observes pg kind el
  | .frame _ => false

/-- How many events of the sequence trigger the element at the observer. -/
def triggerCount (numberToString : ℚ → String) (kind : ObserverKind) (el : Element) :
    Page → List PageEvent → Nat
  | _, [] => 0
  | pg, ev :: evs =>
    (if triggers pg kind el ev then 1 else 0) +
      triggerCount numberToString kind el (pageStep numberToString pg ev) evs

/-! ## A small document used in the examples -/

/-- An element with the given identity and tag and no attributes. -/
def plainElement (node : Nat) (tag : String) : Element :=
  { node := node, tag := tag, id := none, classes := [], href := none, dataTarget := none,
    dataDecimal := none, skillItemVal := none }

/-- The element `<section id="about">`. -/
def sectionAbout : Element := { plainElement 1 "section" with id := some "about" }

/-- The element `<section id="skills">`. -/
def sectionSkills : Element := { plainElement 2 "section" with id := some "skills" }

/-- The element `<a class="nav-link" href="#about">`. -/
def linkAbout : Element :=
  { plainElement 3 "a" with classes := ["nav-link"], href := some "#about" }

/-- The element `<a class="nav-link" href="#skills">`. -/
def linkSkills : Element :=
  { plainElement 4 "a" with classes := ["nav-link"], href := some "#skills" }

/-- The element `<span data-target="abc">`: a counter whose target is not a number. -/
def counterAbc : Element := { plainElement 5 "span" with dataTarget := some "abc" }

/-- The element `<div class="reveal">`. -/
def revealBox : Element := { plainElement 6 "div" with classes := ["reveal"] }

/-- The example document. -/
def sampleDoc : List Element :=
  [sectionAbout, sectionSkills, linkAbout, linkSkills, counterAbc, revealBox]

/-! ## 15. Theme toggle: sequences of clicks -/

/-- The page after `n` clicks on the theme toggle. -/
def themeClicks : Nat → Page → Page
  | 0, pg => pg
  | n + 1, pg => themeClicks n (themeClick pg)

/-! ## 2. Hero scene: mouse parallax (lines 143-148 and 156-162) -/

/-- The variables of the parallax: `mouseX`, `mouseY`, `targetX`, `targetY` of
lines 143-144 and the two scene angles written by `animate`. -/
structure Parallax where
  mouseX : ℚ
  mouseY : ℚ
  targetX : ℚ
  targetY : ℚ
  rotationY : ℚ
  rotationX : ℚ
  deriving DecidableEq, Repr

/-- The state after `initThreeHero` has set up the scene: the four variables
are 0 and the scene is not rotated. -/
def Parallax.start : Parallax :=
  { mouseX := 0, mouseY := 0, targetX := 0, targetY := 0, rotationY := 0, rotationX := 0 }

/-- The `mousemove` listener of lines 145-148; `w` and `h` are
`window.innerWidth` and `window.innerHeight` when the event arrives. -/
def mousemove (clientX clientY w h : ℚ) (st : Parallax) : Parallax :=
  { st with
    mouseX := (clientX / w - 1 / 2) * 2
    mouseY := (clientY / h - 1 / 2) * 2 }

/-- The part of `animate` that follows the mouse (lines 157-162); the literals
`0.04`, `0.25` and `0.12` are taken as exact decimals. -/
def animate (st : Parallax) : Parallax :=
  let targetX := st.targetX + (st.mouseX - st.targetX) * (4 / 100)
  let targetY := st.targetY + (st.mouseY - st.targetY) * (4 / 100)
  { st with
    targetX := targetX
    targetY := targetY
    rotationY := targetX * (25 / 100)
    rotationX := -targetY * (12 / 100) }

/-- What happens to the parallax: a pointer event or a frame. -/
inductive HeroEvent where
  | mousemove (clientX clientY w h : ℚ)
  | animate
  deriving DecidableEq, Repr

/-- A pointer event inside a window of positive size. -/
def HeroEvent.inWindow : HeroEvent → Prop
  | .mousemove clientX clientY w h =>
    0 < w ∧ 0 < h ∧ 0 ≤ clientX ∧ clientX ≤ w ∧ 0 ≤ clientY ∧ clientY ≤ h
  | .animate => True

/-- One step of the parallax. -/
def heroStep (st : Parallax) : HeroEvent → Parallax
  | .mousemove clientX clientY w h => mousemove clientX clientY w h st
  | .animate => animate st

/-- The parallax after a sequence of events. -/
def heroRun (st : Parallax) (evs : List HeroEvent) : Parallax :=
  evs.foldl heroStep st

/-- The bounds of the parallax variables and of the two scene angles. -/
def Parallax.bounded (st : Parallax) : Prop :=
  (-1 ≤ st.mouseX ∧ st.mouseX ≤ 1) ∧ (-1 ≤ st.mouseY ∧ st.mouseY ≤ 1) ∧
  (-1 ≤ st.targetX ∧ st.targetX ≤ 1) ∧ (-1 ≤ st.targetY ∧ st.targetY ≤ 1) ∧
  (-(25 / 100) ≤ st.rotationY ∧ st.rotationY ≤ 25 / 100) ∧
  (-(12 / 100) ≤ st.rotationX ∧ st.rotationX ≤ 12 / 100)

/-! ## 13. Contact form (lines 563-592) and 14. toast (lines 597-603) -/

/-- The method `String.prototype.trim`: white space and line terminators are
removed from both ends. -/
def jsTrim (s : String) : String :=
  String.mk ((s.toList.dropWhile isWhiteSpace).reverse.dropWhile isWhiteSpace).reverse

/-- A regular expression `[…]+` matched against the whole of `cs`: a non-empty
run of characters of the class. -/
def matchClassPlus (cls : Char → Bool) (cs : List Char) : Bool :=
  decide (cs ≠ []) && cs.all cls

/-- A literal character matched against the whole of `cs`. -/
def matchChar (c : Char) (cs : List Char) : Bool :=
  decide (cs = [c])

/-- The concatenation of two expressions matched against the whole of `cs`:
some split of `cs` matches the first with its left part and the second with
its right part. -/
def matchSeq (p q : List Char → Bool) (cs : List Char) : Bool :=
  (List.range (cs.length + 1)).any fun i => p (cs.take i) && q (cs.drop i)

/-- The character class `[^\s@]`. -/
def notSpaceNorAt (c : Char) : Bool :=
  !isWhiteSpace c && decide (c ≠ '@')

/-- The test `/^[^\s@]+@[^\s@]+\.[^\s@]+$/.test(email)` of line 578: the whole
string is a run of the class, `@`, a run, `.`, a run. -/
def emailRegexTest (email : String) : Bool :=
  matchSeq (matchClassPlus notSpaceNorAt)
    (matchSeq (matchChar '@')
      (matchSeq (matchClassPlus notSpaceNorAt)
        (matchSeq (matchChar '.') (matchClassPlus notSpaceNorAt)))) email.toList

/-- The shape of an address in the words of the specification: no white space,
exactly one `@` with a non-empty part before it, and after the `@` a `.` that
is neither the first nor the last character of that part. -/
def emailShape (cs : List Char) : Bool :=
  cs.all (fun c => !isWhiteSpace c) && decide (cs.count '@' = 1) &&
  decide (cs.takeWhile (fun c => decide (c ≠ '@')) ≠ []) &&
  (List.range ((cs.dropWhile fun c => decide (c ≠ '@')).drop 1).length).any fun k =>
    decide (0 < k) && decide (k + 1 < ((cs.dropWhile fun c => decide (c ≠ '@')).drop 1).length) &&
      decide (((cs.dropWhile fun c => decide (c ≠ '@')).drop 1).get? k = some '.')

/-- What the submit handler and `showToast` do to the page. -/
inductive FormEffect where
  | preventDefault
  | toastText (msg : String)
  | toastShow
  | toastHideAfter (ms : Nat)
  | successReveal
  | formReset
  | successHideAfter (ms : Nat)
  deriving DecidableEq, Repr

/-- The contact form when it is submitted: the values of the fields `name`,
`email` and `message`, and whether the elements `#form-success` and `#toast`
exist. -/
structure ContactForm where
  name : String
  email : String
  message : String
  hasSuccess : Bool
  hasToast : Bool
  deriving DecidableEq, Repr

/-- The function `showToast(msg)` of lines 597-603: nothing without the element
`#toast`. -/
def showToast (hasToast : Bool) (msg : String) : List FormEffect :=
  if hasToast then [.toastText msg, .toastShow, .toastHideAfter 3500] else []

/-- The submit handler of lines 568-591: the effects in order. -/
def submit (form : ContactForm) : List FormEffect :=
  let name := jsTrim form.name
  let email := jsTrim form.email
  let msg := jsTrim form.message
  if name = "" ∨ email = "" ∨ msg = "" then
    .preventDefault :: showToast form.hasToast "⚠️ Please fill in all fields."
  else if !emailRegexTest email then
    .preventDefault :: showToast form.hasToast "⚠️ Enter a valid email address."
  else
    .preventDefault :: ((if form.hasSuccess then [.successReveal] else []) ++ [.formReset] ++
      showToast form.hasToast "🚀 Message sent!" ++ [.successHideAfter 5000])

/-- The condition of the specification for the success path: the trimmed name,
email and message are all non-empty and the trimmed email has the shape
`emailShape`. -/
def formValid (form : ContactForm) : Bool :=
  decide (jsTrim form.name ≠ "") && decide (jsTrim form.email ≠ "") &&
    decide (jsTrim form.message ≠ "") && emailShape (jsTrim form.email).toList
/-! # Theorems -/

/-! ### Binary64: the exact operations, the comparison, the integer square root -/

theorem Binary64.shiftTo_toRat (d : Binary64) (e : Int) (he : e ≤ d.exp) :
    ((d.shiftTo e : Int) : ℚ) * (2 : ℚ) ^ e = d.toRat := by
  unfold Binary64.shiftTo Binary64.toRat
  have h2 : (2 : ℚ) ≠ 0 := by norm_num
  have hk : ((d.exp - e).toNat : Int) = d.exp - e := Int.toNat_of_nonneg (by omega)
  have hpow : (2 : ℚ) ^ (d.exp - e).toNat * (2 : ℚ) ^ e = (2 : ℚ) ^ d.exp := by
    rw [← zpow_natCast, hk, ← zpow_add₀ h2]
    congr 1
    omega
  push_cast
  rw [mul_assoc, hpow]

/-- The exact difference has the difference of the values. -/
theorem Binary64.toRat_exactSub (a b : Binary64) :
    (a.exactSub b).toRat = a.toRat - b.toRat := by
  have ha := a.shiftTo_toRat (min a.exp b.exp) (min_le_left _ _)
  have hb := b.shiftTo_toRat (min a.exp b.exp) (min_le_right _ _)
  rw [← ha, ← hb]
  simp only [Binary64.exactSub, Binary64.toRat]
  push_cast
  ring

/-- The exact sum has the sum of the values. -/
theorem Binary64.toRat_exactAdd (a b : Binary64) :
    (a.exactAdd b).toRat = a.toRat + b.toRat := by
  have ha := a.shiftTo_toRat (min a.exp b.exp) (min_le_left _ _)
  have hb := b.shiftTo_toRat (min a.exp b.exp) (min_le_right _ _)
  rw [← ha, ← hb]
  simp only [Binary64.exactAdd, Binary64.toRat]
  push_cast
  ring

/-- The exact product has the product of the values. -/
theorem Binary64.toRat_exactMul (a b : Binary64) :
    (a.exactMul b).toRat = a.toRat * b.toRat := by
  simp only [Binary64.exactMul, Binary64.toRat]
  have h2 : (2 : ℚ) ≠ 0 := by norm_num
  rw [zpow_add₀ h2]
  push_cast
  ring

/-- The comparison is the comparison of the values. -/
theorem Binary64.lt_iff (a b : Binary64) : a.lt b = true ↔ a.toRat < b.toRat := by
  have ha := a.shiftTo_toRat (min a.exp b.exp) (min_le_left _ _)
  have hb := b.shiftTo_toRat (min a.exp b.exp) (min_le_right _ _)
  have hpos : (0 : ℚ) < (2 : ℚ) ^ (min a.exp b.exp) := zpow_pos (by norm_num) _
  unfold Binary64.lt
  rw [decide_eq_true_iff, ← ha, ← hb, mul_lt_mul_right hpos]
  exact Int.cast_lt.symm

theorem Binary64.toRat_ofInt (n : Int) : (Binary64.ofInt n).toRat = n := by
  simp [Binary64.ofInt, Binary64.toRat]

theorem isqrtAux_spec (n : Nat) (k r : Nat) (hlo : r * r ≤ n)
    (hhi : n < (r + 2 ^ k) * (r + 2 ^ k)) :
    isqrtAux n k r * isqrtAux n k r ≤ n ∧ n < (isqrtAux n k r + 1) * (isqrtAux n k r + 1) := by
  induction k generalizing r with
  | zero => exact ⟨hlo, by simpa using hhi⟩
  | succ k ih =>
    unfold isqrtAux
    by_cases hc : (r + 2 ^ k) * (r + 2 ^ k) ≤ n
    · rw [if_pos hc]
      apply ih _ hc
      have e : r + 2 ^ k + 2 ^ k = r + 2 ^ (k + 1) := by rw [pow_succ]; ring
      rw [e]
      exact hhi
    · rw [if_neg hc]
      exact ih _ hlo (not_le.mp hc)

theorem lt_two_pow_floorLog2Aux (fuel n : Nat) (h : n ≤ fuel) :
    n < 2 ^ (floorLog2Aux fuel n + 1) := by
  induction fuel generalizing n with
  | zero =>
    have : n = 0 := by omega
    subst this
    simp [floorLog2Aux]
  | succ fuel ih =>
    unfold floorLog2Aux
    by_cases h2 : n < 2
    · rw [if_pos h2]
      simpa using h2
    · rw [if_neg h2]
      have hrec := ih (n / 2) (by omega)
      rw [pow_succ]
      omega

/-- The integer square root is the floor of the square root. -/
theorem isqrt_spec (n : Nat) : isqrt n * isqrt n ≤ n ∧ n < (isqrt n + 1) * (isqrt n + 1) := by
  unfold isqrt
  apply isqrtAux_spec
  · simp
  · have h1 := lt_two_pow_floorLog2Aux n n le_rfl
    have h2 : floorLog2Aux n n + 1 ≤ 2 * (floorLog2 n / 2 + 1) := by
      unfold floorLog2
      omega
    have h3 : 2 ^ (floorLog2Aux n n + 1) ≤ 2 ^ (2 * (floorLog2 n / 2 + 1)) :=
      Nat.pow_le_pow_right (by norm_num) h2
    have h4 : (0 + 2 ^ (floorLog2 n / 2 + 1)) * (0 + 2 ^ (floorLog2 n / 2 + 1)) =
        2 ^ (2 * (floorLog2 n / 2 + 1)) := by
      rw [Nat.zero_add, ← pow_two, ← pow_mul, Nat.mul_comm]
    rw [h4]
    omega


/-- Rounding is to a nearest number: the result of rounding the magnitude
`n * 2 ^ e` differs from it by at most half of the last kept place
`2 ^ q`, `q = max (e + floorLog2 n - 52) (-1074)`. -/
theorem roundSticky_near (neg : Bool) (n : Nat) (e : Int) (r : Binary64)
    (h : roundSticky neg n e false = some r) :
    |r.toRat - (if neg then -1 else 1) * ((n : ℚ) * (2 : ℚ) ^ e)| * 2 ≤
      (2 : ℚ) ^ (max (e + (floorLog2 n : Int) - 52) (-1074)) := by
  have h2 : (2 : ℚ) ≠ 0 := by norm_num
  have hpos : ∀ k : Int, (0 : ℚ) < (2 : ℚ) ^ k := fun k => zpow_pos (by norm_num) k
  unfold roundSticky at h
  by_cases hn : n = 0
  · subst hn
    simp only [if_true, Option.some.injEq] at h
    subst h
    simp only [Binary64.toRat]
    norm_num
    exact (hpos _).le
  · rw [if_neg hn] at h
    simp only at h
    by_cases hq : max (e + (floorLog2 n : Int) - 52) (-1074) ≤ e
    · rw [if_pos hq] at h
      split at h
      · exact absurd h (by simp)
      · simp only [Option.some.injEq] at h
        subst h
        have : (Binary64.mk (if neg = true then -(n : Int) else (n : Int)) e).toRat -
            (if neg = true then -1 else 1) * ((n : ℚ) * (2 : ℚ) ^ e) = 0 := by
          cases neg <;> simp [Binary64.toRat]
        rw [this]
        simp only [abs_zero, zero_mul]
        exact (hpos _).le
    · rw [if_neg hq] at h
      generalize hqdef : max (e + (floorLog2 n : Int) - 52) (-1074) = q at h hq ⊢
      have hlt : e < q := not_le.mp hq
      have hs : (((q - e).toNat : Nat) : Int) = q - e := Int.toNat_of_nonneg (by omega)
      generalize hsdef : (q - e).toNat = s at h hs
      have hs1 : 1 ≤ s := by omega
      have hdm : 2 ^ s * (n / 2 ^ s) + n % 2 ^ s = n := Nat.div_add_mod n (2 ^ s)
      have hhalf : 2 * 2 ^ (s - 1) = 2 ^ s := by
        obtain ⟨t, rfl⟩ : ∃ t, s = t + 1 := ⟨s - 1, by omega⟩
        simp [pow_succ, Nat.mul_comm]
      have hpow : (2 : ℚ) ^ q = (2 : ℚ) ^ s * (2 : ℚ) ^ e := by
        rw [← zpow_natCast, hs, ← zpow_add₀ h2]
        congr 1
        omega
      generalize hup : (decide (2 ^ (s - 1) < n % 2 ^ s) ||
        (decide (n % 2 ^ s = 2 ^ (s - 1)) && (false || decide (n / 2 ^ s % 2 = 1)))) = up at h
      generalize hhi : n / 2 ^ s = hi at h hdm hup
      generalize hlo : n % 2 ^ s = lo at h hdm hup
      have hdmQ : (n : ℚ) = (2 : ℚ) ^ s * hi + lo := by exact_mod_cast hdm.symm
      have hhalfQ : (2 : ℚ) * ((2 ^ (s - 1) : Nat) : ℚ) = (2 : ℚ) ^ s := by exact_mod_cast hhalf
      rw [hpow]
      cases up with
      | true =>
        simp only [if_true] at h
        split at h
        · exact absurd h (by simp)
        · simp only [Option.some.injEq] at h
          subst h
          have hge : 2 ^ (s - 1) ≤ lo := by
            simp only [Bool.or_eq_true, decide_eq_true_eq, Bool.and_eq_true] at hup
            rcases hup with hup | hup
            · exact hup.le
            · exact hup.1.ge
          have hgeQ : ((2 ^ (s - 1) : Nat) : ℚ) ≤ lo := by exact_mod_cast hge
          have hloS : (lo : ℚ) < (2 : ℚ) ^ s := by
            have : lo < 2 ^ s := by rw [← hlo]; exact Nat.mod_lt _ (by positivity)
            exact_mod_cast this
          have hd : (Binary64.mk (if neg = true then -((hi + 1 : Nat) : Int)
              else ((hi + 1 : Nat) : Int)) q).toRat -
              (if neg = true then -1 else 1) * ((n : ℚ) * (2 : ℚ) ^ e) =
              (if neg = true then -1 else 1) * (((2 : ℚ) ^ s - lo) * (2 : ℚ) ^ e) := by
            cases neg <;> simp [Binary64.toRat, hpow, hdmQ] <;> ring
          rw [hd, abs_mul, abs_mul]
          have hsign : |(if neg = true then (-1 : ℚ) else 1)| = 1 := by cases neg <;> simp
          rw [hsign, one_mul, abs_of_pos (hpos e), abs_of_pos (by linarith)]
          have := hpos e
          nlinarith
      | false =>
        simp only [Bool.false_eq_true, if_false] at h
        split at h
        · exact absurd h (by simp)
        · simp only [Option.some.injEq] at h
          subst h
          have hle : lo ≤ 2 ^ (s - 1) := by
            simp only [Bool.or_eq_false_iff, decide_eq_false_iff_not, not_lt] at hup
            exact hup.1
          have hleQ : (lo : ℚ) ≤ ((2 ^ (s - 1) : Nat) : ℚ) := by exact_mod_cast hle
          have hd : (Binary64.mk (if neg = true then -((hi : Nat) : Int)
              else ((hi : Nat) : Int)) q).toRat -
              (if neg = true then -1 else 1) * ((n : ℚ) * (2 : ℚ) ^ e) =
              (if neg = true then -1 else 1) * (-(lo : ℚ) * (2 : ℚ) ^ e) := by
            cases neg <;> simp [Binary64.toRat, hpow, hdmQ] <;> ring
          rw [hd, abs_mul, abs_mul]
          have hsign : |(if neg = true then (-1 : ℚ) else 1)| = 1 := by cases neg <;> simp
          have hlo0 : (0 : ℚ) ≤ lo := by positivity
          rw [hsign, one_mul, abs_of_pos (hpos e), abs_neg, abs_of_nonneg hlo0]
          have := hpos e
          nlinarith

theorem two_pow_floorLog2Aux_le (fuel n : Nat) (hn : 0 < n) :
    2 ^ floorLog2Aux fuel n ≤ n := by
  induction fuel generalizing n with
  | zero => simpa [floorLog2Aux] using hn
  | succ fuel ih =>
    unfold floorLog2Aux
    by_cases h2 : n < 2
    · rw [if_pos h2]
      simpa using hn
    · rw [if_neg h2]
      have hrec := ih (n / 2) (by omega)
      rw [pow_succ]
      omega

/-- The leading bit: `2 ^ floorLog2 n ≤ n < 2 ^ (floorLog2 n + 1)` for `n > 0`. -/
theorem floorLog2_spec (n : Nat) (hn : 0 < n) :
    2 ^ floorLog2 n ≤ n ∧ n < 2 ^ (floorLog2 n + 1) :=
  ⟨two_pow_floorLog2Aux_le n n hn, lt_two_pow_floorLog2Aux n n le_rfl⟩

/-- Rounding an exact result gives a number within half of the last kept place. -/
theorem Binary64.round_near (d r : Binary64) (h : d.round = some r) :
    |r.toRat - d.toRat| * 2 ≤
      (2 : ℚ) ^ (max (d.exp + (floorLog2 d.mant.natAbs : Int) - 52) (-1074)) := by
  have hval : (if decide (d.mant < 0) = true then (-1 : ℚ) else 1) *
      ((d.mant.natAbs : ℚ) * (2 : ℚ) ^ d.exp) = d.toRat := by
    unfold Binary64.toRat
    by_cases hneg : d.mant < 0
    · have : ((d.mant.natAbs : Int) : ℚ) = -(d.mant : ℚ) := by
        rw [← Int.cast_neg]
        congr 1
        omega
      simp only [hneg, decide_True, if_true]
      rw [← Int.cast_natCast, this]
      ring
    · have : ((d.mant.natAbs : Int) : ℚ) = (d.mant : ℚ) := by
        congr 1
        omega
      simp only [hneg, decide_False, Bool.false_eq_true, if_false, one_mul]
      rw [← Int.cast_natCast, this]
  have := roundSticky_near (decide (d.mant < 0)) d.mant.natAbs d.exp r h
  rw [hval] at this
  exact this
/-! ### Lemmas on the line network -/

theorem lineBody_foldl (lineNodes : List Vector3) (i : Nat) (js : List Nat) (st : LineState) :
    js.foldl (lineBody lineNodes i) st =
      { lineVerts := st.lineVerts ++
          ((js.map fun j => (i, j)).filter (nearPair lineNodes)).flatMap (segment lineNodes),
        tested := st.tested ++ js.map fun j => (i, j) } := by
  induction js generalizing st with
  | nil => simp
  | cons j js ih =>
    rw [List.foldl_cons, ih]
    by_cases h : distanceToLt (nodeAt lineNodes i) (nodeAt lineNodes j) (Binary64.ofInt 14) = true
    · simp [lineBody, nearPair, h, List.filter_cons]
    · simp [lineBody, nearPair, h, List.filter_cons]

theorem lineInner_foldl (lineNodes : List Vector3) (is : List Nat) (st : LineState) :
    is.foldl (lineInner lineNodes) st =
      { lineVerts := st.lineVerts ++
          ((is.flatMap (rowPairs lineNodes.length)).filter (nearPair lineNodes)).flatMap
            (segment lineNodes),
        tested := st.tested ++ is.flatMap (rowPairs lineNodes.length) } := by
  induction is generalizing st with
  | nil => simp
  | cons i is ih =>
    rw [List.foldl_cons, ih]
    simp [lineInner, lineBody_foldl, rowPairs, List.flatMap_cons, List.filter_append,
      List.flatMap_append, List.append_assoc]

theorem filter_lt_range (n i : Nat) (hi : i < n) :
    ((List.range n).filter fun j => i < j) = List.range' (i + 1) (n - (i + 1)) := by
  have hsplit : List.range n = List.range' 0 (i + 1) ++ List.range' (i + 1) (n - (i + 1)) := by
    rw [List.range_eq_range']
    have := List.range'_append 0 (i + 1) (n - (i + 1)) 1
    simp only [Nat.zero_add, Nat.one_mul] at this
    rw [this]
    congr 1
    omega
  rw [hsplit, List.filter_append]
  have h1 : ((List.range' 0 (i + 1)).filter fun j => decide (i < j)) = [] := by
    rw [List.filter_eq_nil_iff]
    intro a ha
    rw [List.mem_range'_1] at ha
    simp only [decide_eq_true_eq]
    omega
  have h2 : ((List.range' (i + 1) (n - (i + 1))).filter fun j => decide (i < j)) =
      List.range' (i + 1) (n - (i + 1)) := by
    rw [List.filter_eq_self]
    intro a ha
    rw [List.mem_range'_1] at ha
    simp only [decide_eq_true_eq]
    omega
  rw [h1, h2, List.nil_append]

theorem allPairs_eq_rows (n : Nat) : allPairs n = (List.range n).flatMap (rowPairs n) := by
  unfold allPairs rowPairs
  have key : ∀ (l : List Nat), (∀ i ∈ l, i < n) →
      (l.flatMap fun i => ((List.range n).filter fun j => i < j).map fun j => (i, j)) =
        l.flatMap fun i => (List.range' (i + 1) (n - (i + 1))).map fun j => (i, j) := by
    intro l
    induction l with
    | nil => intro _; rfl
    | cons a l ih =>
      intro h
      rw [List.flatMap_cons, List.flatMap_cons, ih (fun i hi => h i (List.mem_cons_of_mem _ hi)),
        filter_lt_range n a (h a (List.mem_cons_self _ _))]
  exact key _ (fun i hi => List.mem_range.mp hi)

/-- The loop output in closed form: the tests are all pairs, the vertices are
the segments of the pairs that pass the test. -/
theorem lineNetwork_eq (lineNodes : List Vector3) :
    lineNetwork lineNodes =
      { lineVerts := ((allPairs lineNodes.length).filter (nearPair lineNodes)).flatMap
          (segment lineNodes),
        tested := allPairs lineNodes.length } := by
  unfold lineNetwork
  rw [lineInner_foldl, allPairs_eq_rows]
  simp

theorem mem_rowPairs (n i : Nat) (p : Nat × Nat) :
    p ∈ rowPairs n i ↔ p.1 = i ∧ i < p.2 ∧ p.2 < n := by
  unfold rowPairs
  rw [List.mem_map]
  constructor
  · rintro ⟨j, hj, rfl⟩
    rw [List.mem_range'_1] at hj
    simp only [true_and]
    omega
  · rintro ⟨h1, h2, h3⟩
    refine ⟨p.2, ?_, ?_⟩
    · rw [List.mem_range'_1]; omega
    · rw [← h1]

theorem mem_allPairs (n : Nat) (p : Nat × Nat) :
    p ∈ allPairs n ↔ p.1 < p.2 ∧ p.2 < n := by
  rw [allPairs_eq_rows, List.mem_flatMap]
  constructor
  · rintro ⟨i, _, hp⟩
    rw [mem_rowPairs] at hp
    omega
  · rintro ⟨h1, h2⟩
    refine ⟨p.1, List.mem_range.mpr (by omega), ?_⟩
    rw [mem_rowPairs]
    exact ⟨rfl, h1, h2⟩

theorem allPairs_sorted (n : Nat) : (allPairs n).Pairwise lexLt := by
  rw [allPairs_eq_rows, List.pairwise_flatMap]
  constructor
  · intro i _
    unfold rowPairs
    rw [List.pairwise_map]
    have h := List.pairwise_lt_range' (i + 1) (n - (i + 1))
    refine h.imp ?_
    intro a b hab
    exact Or.inr ⟨rfl, hab⟩
  · have h := List.pairwise_lt_range n
    refine h.imp ?_
    intro a b hab x hx y hy
    rw [mem_rowPairs] at hx hy
    left
    omega

theorem allPairs_nodup (n : Nat) : (allPairs n).Nodup := by
  have h := allPairs_sorted n
  unfold List.Nodup
  refine h.imp ?_
  intro a b hab heq
  subst heq
  unfold lexLt at hab
  omega

theorem rowLengths_sum (n k : Nat) (hk : k ≤ n) :
    2 * ((List.range k).map fun i => n - (i + 1)).sum + k * (k + 1) = 2 * k * n := by
  induction k with
  | zero => simp
  | succ k ih =>
    have ih' := ih (by omega)
    rw [List.range_succ, List.map_append, List.sum_append]
    simp only [List.map_cons, List.map_nil, List.sum_cons, List.sum_nil, Nat.add_zero]
    obtain ⟨d, rfl⟩ : ∃ d, n = k + 1 + d := ⟨n - (k + 1), by omega⟩
    have e : k + 1 + d - (k + 1) = d := by omega
    rw [e]
    nlinarith [ih']

theorem allPairs_length (n : Nat) : (allPairs n).length = n * (n - 1) / 2 := by
  rw [allPairs_eq_rows, List.length_flatMap]
  have hf : (List.length ∘ rowPairs n) = fun i => n - (i + 1) := by
    funext i
    simp [rowPairs]
  rw [hf]
  have h := rowLengths_sum n n le_rfl
  cases n with
  | zero => simp
  | succ m =>
    have e : (m + 1) * (m + 1 - 1) = (m + 1) * m := by simp
    rw [e]
    have h2 : 2 * ((List.range (m + 1)).map fun i => m + 1 - (i + 1)).sum = (m + 1) * m := by
      nlinarith [h]
    omega

theorem flatMap_block {α β : Type} (f : α → List β) (c : Nat) (hf : ∀ a, (f a).length = c)
    (l : List α) (k : Nat) (hk : c * k < (l.flatMap f).length) :
    ∃ a, l.get? k = some a ∧ ((l.flatMap f).drop (c * k)).take c = f a := by
  induction l generalizing k with
  | nil => simp at hk
  | cons a l ih =>
    cases k with
    | zero =>
      refine ⟨a, rfl, ?_⟩
      simp [List.flatMap_cons, List.take_append_eq_append_take, hf]
    | succ k =>
      have hlen : ((a :: l).flatMap f).length = c + (l.flatMap f).length := by
        simp [List.flatMap_cons, hf]
      have hk' : c * k < (l.flatMap f).length := by
        rw [hlen] at hk
        have : c * (k + 1) = c * k + c := by ring
        omega
      obtain ⟨b, hb, hblock⟩ := ih k hk'
      refine ⟨b, by simpa using hb, ?_⟩
      have e : c * (k + 1) = (f a).length + c * k := by rw [hf]; ring
      rw [List.flatMap_cons, e, List.drop_append]
      exact hblock

theorem nodeAt_get? (lineNodes : List Vector3) (i : Nat) (hi : i < lineNodes.length) :
    lineNodes.get? i = some (nodeAt lineNodes i) := by
  unfold nodeAt
  rw [List.getD_eq_getElem?_getD, List.get?_eq_getElem?]
  rw [List.getElem?_eq_getElem hi]
  rfl

theorem distanceToLt_iff (a b : Vector3) (r : Binary64) :
    distanceToLt a b r = true ↔ ∃ d, distanceTo a b = some d ∧ d.toRat < r.toRat := by
  unfold distanceToLt
  cases h : distanceTo a b with
  | none => simp
  | some d => simp [Binary64.lt_iff]

theorem nearPair_iff (lineNodes : List Vector3) (p : Nat × Nat) :
    nearPair lineNodes p = true ↔
      ∃ d, distanceTo (nodeAt lineNodes p.1) (nodeAt lineNodes p.2) = some d ∧ d.toRat < 14 := by
  unfold nearPair
  rw [distanceToLt_iff, Binary64.toRat_ofInt]
  norm_num

theorem segment_length (lineNodes : List Vector3) (p : Nat × Nat) :
    (segment lineNodes p).length = 6 := rfl

theorem makeLineNodes_length (random : Nat → Binary64) (count : Nat) :
    (makeLineNodes random count).length = count := by
  simp [makeLineNodes]

/-- C1 fails for the exact distance: for the origin and the binary64 point
`(-9.652352333068848, -9.652676060795784, 3.107722526809683)` the loop emits the
segment, because `distanceTo` computes `13.999999999999998`, while the exact
squared distance is above 196 and the exact distance above 14. -/
theorem lineNetwork_emits_far_pair :
    (lineNetwork [originNode, farNode]).lineVerts =
      [originNode.x, originNode.y, originNode.z, farNode.x, farNode.y, farNode.z] ∧
    distanceTo originNode farNode = some ⟨7881299347898367, -49⟩ ∧
    196 < exactDistanceSquared originNode farNode ∧
    14 < Real.sqrt ((exactDistanceSquared originNode farNode : ℚ) : ℝ) := by
  have hsq : 196 < exactDistanceSquared originNode farNode := by
    norm_num [exactDistanceSquared, Binary64.toRat, originNode, farNode]
  refine ⟨by set_option maxRecDepth 100000 in decide,
    by set_option maxRecDepth 100000 in decide, hsq, ?_⟩
  rw [Real.lt_sqrt (by norm_num)]
  have : ((196 : ℚ) : ℝ) < ((exactDistanceSquared originNode farNode : ℚ) : ℝ) := by
    exact_mod_cast hsq
  norm_num at this ⊢
  exact this

/-- C1 as amended: every block of six numbers in `lineVerts` is the six
coordinates of two nodes of the list at indices `i < j < N`, and the binary64
value that `distanceTo` computes for these two nodes is below 14 (never 14 or
more); `lineVerts` consists of such blocks only. -/
theorem lineNetwork_segments_near (lineNodes : List Vector3) (k : Nat)
    (hk : 6 * k < (lineNetwork lineNodes).lineVerts.length) :
    6 ∣ (lineNetwork lineNodes).lineVerts.length ∧
    ∃ i j a b d, i < j ∧ j < lineNodes.length ∧
      lineNodes.get? i = some a ∧ lineNodes.get? j = some b ∧
      ((lineNetwork lineNodes).lineVerts.drop (6 * k)).take 6 = [a.x, a.y, a.z, b.x, b.y, b.z] ∧
      distanceTo a b = some d ∧ d.toRat < 14 ∧ ¬ 14 ≤ d.toRat := by
  rw [lineNetwork_eq] at hk ⊢
  simp only at hk ⊢
  constructor
  · rw [List.length_flatMap]
    have hf : (List.length ∘ segment lineNodes) = fun _ => 6 := by
      funext p; rfl
    rw [hf]
    simp
  · obtain ⟨p, hp, hblock⟩ :=
      flatMap_block (segment lineNodes) 6 (segment_length lineNodes) _ k hk
    have hmem : p ∈ (allPairs lineNodes.length).filter (nearPair lineNodes) :=
      List.get?_mem hp
    rw [List.mem_filter, mem_allPairs] at hmem
    obtain ⟨⟨h1, h2⟩, hnear⟩ := hmem
    obtain ⟨d, hd, hlt⟩ := (nearPair_iff lineNodes p).mp hnear
    exact ⟨p.1, p.2, nodeAt lineNodes p.1, nodeAt lineNodes p.2, d, h1, h2,
      nodeAt_get? lineNodes p.1 (by omega), nodeAt_get? lineNodes p.2 h2, hblock, hd, hlt,
      not_le.mpr hlt⟩

theorem lineNetwork_segments_near_witness :
    6 * 0 < (lineNetwork [originNode, unitNode, awayNode]).lineVerts.length ∧
    (lineNetwork [originNode, unitNode, awayNode]).lineVerts =
      [⟨0, 0⟩, ⟨0, 0⟩, ⟨0, 0⟩, ⟨1, 0⟩, ⟨0, 0⟩, ⟨0, 0⟩] ∧
    ∃ i j a b d, i < j ∧ j < [originNode, unitNode, awayNode].length ∧
      [originNode, unitNode, awayNode].get? i = some a ∧
      [originNode, unitNode, awayNode].get? j = some b ∧
      ((lineNetwork [originNode, unitNode, awayNode]).lineVerts.drop (6 * 0)).take 6 =
        [a.x, a.y, a.z, b.x, b.y, b.z] ∧
      distanceTo a b = some d ∧ d.toRat < 14 ∧ ¬ 14 ≤ d.toRat :=
  have h : 6 * 0 < (lineNetwork [originNode, unitNode, awayNode]).lineVerts.length := by
    set_option maxRecDepth 100000 in decide
  ⟨h, by set_option maxRecDepth 100000 in decide,
    (lineNetwork_segments_near [originNode, unitNode, awayNode] 0 h).2⟩

/-- C2 fails for the exact distance: for the origin and the binary64 point
`(2.649669647216797, 9.917621612548828, 9.51945546294127)` the exact squared
distance is below 196 (the exact distance below 14), yet the pair is tested and
not emitted, because `distanceTo` computes exactly 14. -/
theorem lineNetwork_drops_near_pair :
    exactDistanceSquared originNode nearNode < 196 ∧
    Real.sqrt ((exactDistanceSquared originNode nearNode : ℚ) : ℝ) < 14 ∧
    distanceTo originNode nearNode = some ⟨7881299347898368, -49⟩ ∧
    (⟨7881299347898368, -49⟩ : Binary64).toRat = 14 ∧
    (lineNetwork [originNode, nearNode]).tested = [(0, 1)] ∧
    (lineNetwork [originNode, nearNode]).lineVerts = [] := by
  have hsq : exactDistanceSquared originNode nearNode < 196 := by
    norm_num [exactDistanceSquared, Binary64.toRat, originNode, nearNode]
  refine ⟨hsq, ?_, by set_option maxRecDepth 100000 in decide, ?_,
    by set_option maxRecDepth 100000 in decide, by set_option maxRecDepth 100000 in decide⟩
  · rw [Real.sqrt_lt' (by norm_num)]
    have : ((exactDistanceSquared originNode nearNode : ℚ) : ℝ) < ((196 : ℚ) : ℝ) := by
      exact_mod_cast hsq
    norm_num at this ⊢
    exact this
  · norm_num [Binary64.toRat]

/-- C2 as amended: the loop tests exactly the index pairs `i < j < N`, each
once, in lexicographic order, `N (N - 1) / 2` of them (1770 for the 60 nodes of
the source); `lineVerts` is the list of the six coordinates of the nodes of the
tested pairs for which the binary64 value computed by `distanceTo` is below 14,
a list of pairs without repetition; with no nodes nothing is tested and nothing
is emitted. -/
theorem lineNetwork_all_pairs (lineNodes : List Vector3) (random : Nat → Binary64) :
    (lineNetwork lineNodes).tested = allPairs lineNodes.length ∧
    (lineNetwork lineNodes).tested.length = lineNodes.length * (lineNodes.length - 1) / 2 ∧
    (lineNetwork lineNodes).tested.Nodup ∧
    (lineNetwork lineNodes).tested.Pairwise lexLt ∧
    (∀ p : Nat × Nat, p ∈ (lineNetwork lineNodes).tested ↔ p.1 < p.2 ∧ p.2 < lineNodes.length) ∧
    (lineNetwork lineNodes).lineVerts =
      ((allPairs lineNodes.length).filter (nearPair lineNodes)).flatMap (segment lineNodes) ∧
    ((allPairs lineNodes.length).filter (nearPair lineNodes)).Nodup ∧
    (∀ p : Nat × Nat, p.1 < p.2 → p.2 < lineNodes.length →
      ∃ a b, lineNodes.get? p.1 = some a ∧ lineNodes.get? p.2 = some b ∧
        segment lineNodes p = [a.x, a.y, a.z, b.x, b.y, b.z] ∧
        (p ∈ (allPairs lineNodes.length).filter (nearPair lineNodes) ↔
          ∃ d, distanceTo a b = some d ∧ d.toRat < 14)) ∧
    (∀ p : Nat × Nat, p ∈ (allPairs lineNodes.length).filter (nearPair lineNodes) →
      p.1 < p.2 ∧ p.2 < lineNodes.length) ∧
    (lineNetwork (makeLineNodes random 60)).tested.length = 1770 ∧
    makeLineNodes random 0 = [] ∧
    lineNetwork [] = ⟨[], []⟩ := by
  have hE := lineNetwork_eq lineNodes
  refine ⟨by rw [hE], by rw [hE]; exact allPairs_length _, by rw [hE]; exact allPairs_nodup _,
    by rw [hE]; exact allPairs_sorted _, ?_, by rw [hE], (allPairs_nodup _).filter _, ?_, ?_, ?_,
    rfl, rfl⟩
  · intro p
    rw [hE]
    exact mem_allPairs _ p
  · intro p h1 h2
    refine ⟨nodeAt lineNodes p.1, nodeAt lineNodes p.2, nodeAt_get? lineNodes p.1 (by omega),
      nodeAt_get? lineNodes p.2 h2, rfl, ?_⟩
    rw [List.mem_filter, mem_allPairs, nearPair_iff]
    exact ⟨fun h => h.2, fun h => ⟨⟨h1, h2⟩, h⟩⟩
  · intro p hp
    rw [List.mem_filter, mem_allPairs] at hp
    exact hp.1
  · rw [lineNetwork_eq, makeLineNodes_length]
    simp only
    rw [allPairs_length]

theorem lineNetwork_all_pairs_witness :
    (lineNetwork [originNode, unitNode, awayNode]).tested = [(0, 1), (0, 2), (1, 2)] ∧
    (lineNetwork [originNode, unitNode, awayNode]).lineVerts =
      [⟨0, 0⟩, ⟨0, 0⟩, ⟨0, 0⟩, ⟨1, 0⟩, ⟨0, 0⟩, ⟨0, 0⟩] ∧
    (0, 1).1 < (0, 1).2 ∧ (0, 1).2 < [originNode, unitNode, awayNode].length ∧
    ∃ a b, [originNode, unitNode, awayNode].get? (0, 1).1 = some a ∧
      [originNode, unitNode, awayNode].get? (0, 1).2 = some b ∧
      segment [originNode, unitNode, awayNode] (0, 1) = [a.x, a.y, a.z, b.x, b.y, b.z] ∧
      ((0, 1) ∈ (allPairs [originNode, unitNode, awayNode].length).filter
          (nearPair [originNode, unitNode, awayNode]) ↔
        ∃ d, distanceTo a b = some d ∧ d.toRat < 14) :=
  ⟨by set_option maxRecDepth 100000 in decide, by set_option maxRecDepth 100000 in decide,
    by decide, by decide,
    (lineNetwork_all_pairs [originNode, unitNode, awayNode] (fun _ => ⟨0, 0⟩)).2.2.2.2.2.2.2.1
      (0, 1) (by decide) (by decide)⟩

/-! ### Easing and progress -/

theorem eased_le_eased (p q : ℚ) (hpq : p ≤ q) (hq : q ≤ 1) : eased p ≤ eased q := by
  unfold eased
  have h : (1 - q) ^ 3 ≤ (1 - p) ^ 3 := pow_le_pow_left₀ (by linarith) (by linarith) 3
  linarith

/-- C3: `eased 0 = 0`, `eased 1 = 1`, and for `0 ≤ p ≤ q ≤ 1` the eased values
satisfy `eased p ≤ eased q` and lie in `[0, 1]`. -/
theorem eased_monotone (p q : ℚ) (hp : 0 ≤ p) (hpq : p ≤ q) (hq : q ≤ 1) :
    eased 0 = 0 ∧ eased 1 = 1 ∧ eased p ≤ eased q ∧
      0 ≤ eased p ∧ eased p ≤ 1 ∧ 0 ≤ eased q ∧ eased q ≤ 1 := by
  have h0 : eased 0 = 0 := by norm_num [eased]
  have h1 : eased 1 = 1 := by norm_num [eased]
  have hpq' := eased_le_eased p q hpq hq
  have hp0 : eased 0 ≤ eased p := eased_le_eased 0 p hp (le_trans hpq hq)
  have hq1 : eased q ≤ eased 1 := eased_le_eased q 1 hq le_rfl
  rw [h0] at hp0
  rw [h1] at hq1
  exact ⟨h0, h1, hpq', hp0, le_trans hpq' hq1, le_trans hp0 hpq', hq1⟩

theorem eased_monotone_witness :
    eased 0 = 0 ∧ eased 1 = 1 ∧ eased (1 / 4) ≤ eased (1 / 2) ∧
      0 ≤ eased (1 / 4) ∧ eased (1 / 4) ≤ 1 ∧ 0 ≤ eased (1 / 2) ∧ eased (1 / 2) ≤ 1 :=
  eased_monotone (1 / 4) (1 / 2) (by norm_num) (by norm_num) (by norm_num)

theorem progress_bounds (now start duration : ℚ) :
    0 ≤ progress now start duration ∧ progress now start duration ≤ 1 := by
  unfold progress clamp
  constructor
  · exact le_min (by norm_num) (le_max_left _ _)
  · exact min_le_left _ _

theorem progress_before (now start duration : ℚ) (hd : 0 < duration) (h : now ≤ start) :
    progress now start duration = 0 := by
  unfold progress clamp
  have h1 : (now - start) / duration ≤ 0 :=
    div_nonpos_of_nonpos_of_nonneg (by linarith) hd.le
  rw [max_eq_left h1]
  norm_num

theorem progress_after (now start duration : ℚ) (hd : 0 < duration)
    (h : start + duration ≤ now) : progress now start duration = 1 := by
  unfold progress clamp
  have h1 : 1 ≤ (now - start) / duration := by
    rw [le_div_iff₀ hd]
    linarith
  rw [max_eq_right (le_trans zero_le_one h1)]
  exact min_eq_left h1

theorem progress_between (now start duration : ℚ) (hd : 0 < duration) (h1 : start ≤ now)
    (h2 : now ≤ start + duration) : progress now start duration = (now - start) / duration := by
  unfold progress clamp
  have h0 : 0 ≤ (now - start) / duration := div_nonneg (by linarith) hd.le
  have h3 : (now - start) / duration ≤ 1 := by
    rw [div_le_iff₀ hd]
    linarith
  rw [max_eq_right h0]
  exact min_eq_right h3

/-- C4: for the durations 1300 and 1500 and any `start` and `now`, the progress
lies in `[0, 1]`, is 0 when `now ≤ start`, 1 when `start + duration ≤ now`, and
`(now - start) / duration` in between; the radial step draws
`eased progress * value` and the counter step formats `eased progress * target`
with this clamped progress. -/
theorem progress_clamped (now start duration : ℚ) (hd : duration = 1300 ∨ duration = 1500) :
    (0 ≤ progress now start duration ∧ progress now start duration ≤ 1) ∧
    (now ≤ start → progress now start duration = 0) ∧
    (start + duration ≤ now → progress now start duration = 1) ∧
    (start ≤ now → now ≤ start + duration →
      progress now start duration = (now - start) / duration) ∧
    (∀ (canvas : Nat) (cfg : RadialConfig) (pg : Page),
      ∃ queue, radialStep canvas cfg start now pg =
        { pg with
          writes := pg.writes ++ [.draw canvas (drawFrame cfg (pg.dataTheme ≠ some "light")
            (eased (progress now start 1300) * cfg.value))]
          frameQueue := queue }) ∧
    (∀ (numberToString : ℚ → String) (el : Nat) (target decimal : JSNum) (pg : Page) (text : String),
      toFixed numberToString (JSNum.scale (eased (progress now start 1500)) target) decimal =
        some text →
      ∃ rest, (counterStep numberToString el target decimal start now pg).writes =
        pg.writes ++ .setText el text :: rest) := by
  have hpos : 0 < duration := by
    rcases hd with h | h <;> rw [h] <;> norm_num
  refine ⟨progress_bounds _ _ _, progress_before _ _ _ hpos, progress_after _ _ _ hpos,
    progress_between _ _ _ hpos, ?_, ?_⟩
  · intro canvas cfg pg
    unfold radialStep
    by_cases hlt : progress now start 1300 < 1
    · exact ⟨pg.frameQueue ++ [.radialStep canvas cfg start], by simp only [hlt, if_true]⟩
    · exact ⟨pg.frameQueue, by simp only [hlt, if_false]⟩
  · intro nts el target decimal pg text htext
    unfold counterStep
    simp only [htext]
    by_cases hlt : progress now start 1500 < 1
    · exact ⟨[], by simp only [hlt, if_true]⟩
    · simp only [hlt, if_false]
      cases toFixed nts target decimal with
      | none => exact ⟨[], rfl⟩
      | some t => exact ⟨[.setText el t], by simp⟩

theorem progress_clamped_witness :
    (1300 = 1300 ∨ (1300 : ℚ) = 1500) ∧ progress 650 0 1300 = 1 / 2 ∧
      progress (-5) 0 1300 = 0 ∧ progress 99999 0 1300 = 1 :=
  have h := progress_clamped 650 0 1300 (Or.inl rfl)
  have hb := progress_clamped (-5) 0 1300 (Or.inl rfl)
  have ha := progress_clamped 99999 0 1300 (Or.inl rfl)
  ⟨Or.inl rfl, by rw [h.2.2.2.1 (by norm_num) (by norm_num)]; norm_num,
    hb.2.1 (by norm_num), ha.2.2.1 (by norm_num)⟩

/-! ### Counters: the last step -/

theorem scale_one (t : JSNum) : JSNum.scale 1 t = t := by
  cases t <;> simp [JSNum.scale]

theorem textOf_append_setText (pg : Page) (ws : List DomWrite) (el : Nat) (text : String) :
    textOf { pg with writes := ws ++ [.setText el text] } el = some text := by
  simp [textOf, List.foldl_append]

theorem toFixed_example (numberToString : ℚ → String) :
    toFixed numberToString (.fin (85 / 2)) (.fin 1) = some "42.5" := by
  have hfl : ⌊|(85 / 2 : ℚ)| * 10 + 2⁻¹⌋ = 425 := by
    rw [Int.floor_eq_iff]
    norm_num [abs_of_pos]
  simp [toFixed, fractionDigits, hfl]
  norm_num [abs_of_pos]
  decide

theorem toFixed_none_iff (numberToString : ℚ → String) (x decimal : JSNum) :
    toFixed numberToString x decimal = none ↔ fractionDigits decimal = none := by
  unfold toFixed
  cases h : fractionDigits decimal with
  | none => simp
  | some f =>
    cases x with
    | nan => simp
    | posInf => simp
    | negInf => simp
    | fin q =>
      simp only [false_iff]
      split <;> simp

theorem parseInt_101 : parseInt "101" = .fin 101 := by
  simp [parseInt, isWhiteSpace, takeSign, digitsValue, hexDigit]

theorem fractionDigits_101 : fractionDigits (.fin 101) = none := by
  simp [fractionDigits]

/-- C5 fails for a decimal count that `toFixed` rejects: with
`data-decimal="101"` the call `v.toFixed(decimal)` of line 404 throws a
`RangeError`, so the step at `now - start = 1500` leaves the page as it was and
the element has no text written. -/
theorem counterStep_range_error :
    parseInt "101" = .fin 101 ∧ fractionDigits (.fin 101) = none ∧
    ∀ numberToString : ℚ → String,
      toFixed numberToString (.fin (85 / 2)) (.fin 101) = none ∧
      counterStep numberToString 7 (.fin (85 / 2)) (.fin 101) 0 1500 (Page.initial [] []) =
        Page.initial [] [] ∧
      textOf (counterStep numberToString 7 (.fin (85 / 2)) (.fin 101) 0 1500
        (Page.initial [] [])) 7 = none := by
  refine ⟨parseInt_101, fractionDigits_101, ?_⟩
  intro numberToString
  have hv : ∀ x, toFixed numberToString x (.fin 101) = none :=
    fun x => (toFixed_none_iff numberToString x (.fin 101)).mpr fractionDigits_101
  have hstep : counterStep numberToString 7 (.fin (85 / 2)) (.fin 101) 0 1500
      (Page.initial [] []) = Page.initial [] [] := by
    unfold counterStep
    simp only [hv]
  refine ⟨hv _, hstep, ?_⟩
  rw [hstep]
  rfl

/-- C5 as amended: when `now - start ≥ 1500` and the decimal count is one that
`toFixed` accepts (0 to 100 after truncation, `NaN` counting as 0), so that
`target.toFixed(decimal)` is a string `text`, the counter step leaves `text` as
the text of the element (its last write) and requests no further frame; the
attributes `"42.5"` and `"1"` give the text `"42.5"`.  For any other decimal
count `toFixed` throws a `RangeError` and the step changes nothing: no text is
written and no frame is requested. -/
theorem counterStep_final (numberToString : ℚ → String) (el : Nat) (target decimal : JSNum)
    (start now : ℚ) (pg : Page) (hnow : 1500 ≤ now - start) :
    (∀ text, toFixed numberToString target decimal = some text →
      textOf (counterStep numberToString el target decimal start now pg) el = some text ∧
      (counterStep numberToString el target decimal start now pg).writes =
        pg.writes ++ [.setText el text, .setText el text] ∧
      (counterStep numberToString el target decimal start now pg).frameQueue = pg.frameQueue) ∧
    (toFixed numberToString target decimal = none ↔ fractionDigits decimal = none) ∧
    (fractionDigits decimal = none →
      counterStep numberToString el target decimal start now pg = pg) ∧
    (∀ f, fractionDigits decimal = some f →
      ∃ text, toFixed numberToString target decimal = some text) ∧
    parseFloat "42.5" = .fin (85 / 2) ∧ parseInt "1" = .fin 1 ∧
    toFixed numberToString (.fin (85 / 2)) (.fin 1) = some "42.5" := by
  have hp : progress now start 1500 = 1 :=
    progress_after now start 1500 (by norm_num) (by linarith)
  have he : eased 1 = 1 := by norm_num [eased]
  refine ⟨?_, toFixed_none_iff numberToString target decimal, ?_, ?_, ?_, ?_,
    toFixed_example numberToString⟩
  · intro text hfix
    have hstep : counterStep numberToString el target decimal start now pg =
        { pg with writes := (pg.writes ++ [.setText el text]) ++ [.setText el text] } := by
      unfold counterStep
      simp only [hp, he, scale_one, hfix, lt_irrefl, if_false]
    refine ⟨?_, ?_, ?_⟩
    · rw [hstep]
      exact textOf_append_setText pg _ el text
    · rw [hstep]
      simp
    · rw [hstep]
  · intro hnone
    have hv : ∀ x, toFixed numberToString x decimal = none :=
      fun x => (toFixed_none_iff numberToString x decimal).mpr hnone
    unfold counterStep
    simp only [hv]
  · intro f hf
    cases h : toFixed numberToString target decimal with
    | some text => exact ⟨text, rfl⟩
    | none =>
      rw [(toFixed_none_iff numberToString target decimal).mp h] at hf
      exact Option.noConfusion hf
  · simp [parseFloat, isWhiteSpace, takeSign, digitsValue, hexDigit, exponentPart]
    norm_num
  · simp [parseInt, isWhiteSpace, takeSign, digitsValue, hexDigit]

theorem counterStep_final_witness :
    (1500 : ℚ) ≤ 1500 - 0 ∧
    toFixed (fun _ => "") (.fin (85 / 2)) (.fin 1) = some "42.5" ∧
    textOf (counterStep (fun _ => "") 7 (.fin (85 / 2)) (.fin 1) 0 1500
      (Page.initial [] [])) 7 = some "42.5" ∧
    fractionDigits (.fin 101) = none ∧
    counterStep (fun _ => "") 7 (.fin (85 / 2)) (.fin 101) 0 1500 (Page.initial [] []) =
      Page.initial [] [] :=
  have h := counterStep_final (fun _ => "") 7 (.fin (85 / 2)) (.fin 1) 0 1500
    (Page.initial [] []) (by norm_num)
  have h2 := counterStep_final (fun _ => "") 7 (.fin (85 / 2)) (.fin 101) 0 1500
    (Page.initial [] []) (by norm_num)
  ⟨by norm_num, toFixed_example _, (h.1 "42.5" (toFixed_example _)).1, fractionDigits_101,
    h2.2.2.1 fractionDigits_101⟩

/-! ### Theme toggle -/

theorem getItem_setItem (storage : List (String × String)) (key value : String) :
    getItem (setItem storage key value) key = some value := by
  simp [getItem, setItem]

theorem initThemeToggle_stored (pg : Page) (saved : String)
    (h : getItem pg.storage "ak-theme" = some saved) (hs : saved ≠ "") :
    (initThemeToggle pg).dataTheme = some saved := by
  unfold initThemeToggle
  rw [h]
  simp [applyTheme, hs]

/-- C7: with no entry stored under `'ak-theme'`, `initThemeToggle` makes the
active theme `"dark"`; one click then makes it `"light"` and stores `"light"`
under the key; `initThemeToggle` after a reload that keeps the storage makes
the active theme `"light"`. -/
theorem theme_round_trip (doc : List Element) (storage : List (String × String))
    (hnone : getItem storage "ak-theme" = none) :
    (initThemeToggle (Page.initial doc storage)).dataTheme = some "dark" ∧
    (themeClick (initThemeToggle (Page.initial doc storage))).dataTheme = some "light" ∧
    getItem (themeClick (initThemeToggle (Page.initial doc storage))).storage "ak-theme" =
      some "light" ∧
    (initThemeToggle (reload doc (themeClick (initThemeToggle (Page.initial doc storage))))).dataTheme
      = some "light" := by
  have h0 : (initThemeToggle (Page.initial doc storage)).dataTheme = some "dark" := by
    simp [initThemeToggle, applyTheme, Page.initial, hnone]
  have h1 : (themeClick (initThemeToggle (Page.initial doc storage))).dataTheme = some "light" := by
    simp [themeClick, applyTheme, h0]
  have h2 : getItem (themeClick (initThemeToggle (Page.initial doc storage))).storage "ak-theme" =
      some "light" := by
    simp [themeClick, applyTheme, h0, getItem_setItem]
  refine ⟨h0, h1, h2, ?_⟩
  have h3 : getItem (reload doc (themeClick (initThemeToggle (Page.initial doc storage)))).storage
      "ak-theme" = some "light" := h2
  exact initThemeToggle_stored _ "light" h3 (by decide)

theorem theme_round_trip_witness :
    getItem [("lang", "en")] "ak-theme" = none ∧
    (initThemeToggle (reload [] (themeClick (initThemeToggle
      (Page.initial [] [("lang", "en")]))))).dataTheme = some "light" :=
  ⟨by decide, (theme_round_trip [] [("lang", "en")] (by decide)).2.2.2⟩

/-! ### Radial charts: the frame at full progress -/

theorem MathPI_pos : 0 < MathPI := by
  norm_num [MathPI]

/-- C8: when `now ≥ start + 1300` the radial step draws `drawFrame(value)` and
requests no frame; the fill arc of that frame starts at `-Math.PI / 2` and ends
at `-Math.PI / 2 + (value / 100) * Math.PI * 2`, a sweep of `value` percent of
`2 * Math.PI`; for `value = 75` the sweep is `3 * Math.PI / 2`, which is 270
degrees. -/
theorem radialStep_full (canvas : Nat) (cfg : RadialConfig) (start now : ℚ) (pg : Page)
    (hnow : start + 1300 ≤ now) :
    radialStep canvas cfg start now pg =
      { pg with writes := pg.writes ++
          [.draw canvas (drawFrame cfg (pg.dataTheme ≠ some "light") cfg.value)] } ∧
    (∀ isDark, arcAngles (drawFrame cfg isDark cfg.value) =
      [(0, MathPI * 2), (-MathPI / 2, -MathPI / 2 + cfg.value / 100 * MathPI * 2)]) ∧
    (-MathPI / 2 + cfg.value / 100 * MathPI * 2) - (-MathPI / 2) =
      cfg.value / 100 * (2 * MathPI) ∧
    (cfg.value = 75 →
      (-MathPI / 2 + cfg.value / 100 * MathPI * 2) - (-MathPI / 2) = 3 * MathPI / 2 ∧
      ((-MathPI / 2 + cfg.value / 100 * MathPI * 2) - (-MathPI / 2)) * (180 / MathPI) = 270) := by
  have hp : progress now start 1300 = 1 := progress_after now start 1300 (by norm_num) hnow
  have he : eased 1 = 1 := by norm_num [eased]
  refine ⟨?_, ?_, by ring, ?_⟩
  · unfold radialStep
    simp only [hp, he, lt_irrefl, if_false, one_mul]
  · intro isDark
    simp [drawFrame, arcAngles]
  · intro h75
    have hpi : MathPI ≠ 0 := ne_of_gt MathPI_pos
    rw [h75]
    constructor
    · ring
    · field_simp
      ring

theorem radialStep_full_witness :
    (0 : ℚ) + 1300 ≤ 1300 ∧
    arcAngles (drawFrame ⟨"radial-2", 75, "#f59e0b"⟩ true 75) =
      [(0, MathPI * 2), (-MathPI / 2, -MathPI / 2 + 75 / 100 * MathPI * 2)] ∧
    ((-MathPI / 2 + 75 / 100 * MathPI * 2) - (-MathPI / 2)) * (180 / MathPI) = 270 :=
  have h := radialStep_full 3 ⟨"radial-2", 75, "#f59e0b"⟩ 0 1300 (Page.initial [] [])
    (by norm_num)
  ⟨by norm_num, h.2.1 true, (h.2.2.2 rfl).2⟩

/-! ### The one-shot observers -/

theorem mem_unobserve (observed : List Element) (el x : Element) :
    x ∈ unobserve observed el ↔ x ∈ observed ∧ x ≠ el := by
  simp [unobserve]

theorem radialEntry_foldl (l : List (RadialConfig × Element)) (now : ℚ) (pg : Page) (e : Entry)
    (he : e.isIntersecting = true) :
    l.foldl (fun p oc => radialEntry oc.1 oc.2 now p e) pg =
      { pg with
        radialObserved := pg.radialObserved.filter fun oc => oc ∉ l
        frameQueue := pg.frameQueue ++ l.map fun oc => .radialStep oc.2.node oc.1 now } := by
  induction l generalizing pg with
  | nil => simp
  | cons a l ih =>
    rw [List.foldl_cons, ih]
    simp only [radialEntry, he, if_true, List.filter_filter, List.map_cons, List.append_assoc,
      List.singleton_append]
    congr 1
    apply List.filter_congr
    intro x _
    simp [List.mem_cons, not_or, Bool.and_comm]

theorem radialEntry_foldl_false (l : List (RadialConfig × Element)) (now : ℚ) (pg : Page)
    (e : Entry) (he : e.isIntersecting = false) :
    l.foldl (fun p oc => radialEntry oc.1 oc.2 now p e) pg = pg := by
  induction l generalizing pg with
  | nil => rfl
  | cons a l ih =>
    rw [List.foldl_cons, ih]
    simp [radialEntry, he]

/-- An entry that does not intersect changes nothing. -/
theorem notify_not_intersecting (pg : Page) (kind : ObserverKind) (e : Entry) (now : ℚ)
    (he : e.isIntersecting = false) : notify pg kind e now = pg := by
  cases kind
  · simp [notify, navEntry, he]
  · simp [notify, revealEntry, he]
  · simp [notify, skillEntry, he]
  · simp only [notify]
    exact radialEntry_foldl_false _ now pg e he
  · simp [notify, counterEntry, he]

/-- An entry for a target that is not observed changes nothing. -/
theorem notify_not_observed (pg : Page) (kind : ObserverKind) (e : Entry) (now : ℚ)
    (ho : observes pg kind e.target = false) : notify pg kind e now = pg := by
  cases kind
  · simp only [observes, decide_eq_false_iff_not] at ho
    simp [notify, ho]
  · simp only [observes, decide_eq_false_iff_not] at ho
    simp [notify, ho]
  · simp only [observes, decide_eq_false_iff_not] at ho
    simp [notify, ho]
  · simp only [observes] at ho
    have hnil : (pg.radialObserved.filter fun oc => oc.2 = e.target) = [] := by
      rw [List.filter_eq_nil_iff]
      intro a ha
      rw [List.any_eq_false] at ho
      exact ho a ha
    simp only [notify, hnil, List.foldl_nil]
  · simp only [observes, decide_eq_false_iff_not] at ho
    simp [notify, ho]

/-- After an intersecting entry the target is no longer observed by a one-shot
observer. -/
theorem notify_unobserves (pg : Page) (kind : ObserverKind) (hkind : kind ≠ .nav) (e : Entry)
    (now : ℚ) (he : e.isIntersecting = true) :
    observes (notify pg kind e now) kind e.target = false := by
  by_cases ho : observes pg kind e.target = false
  · rw [notify_not_observed pg kind e now ho]
    exact ho
  · rw [Bool.not_eq_false] at ho
    cases kind
    · exact absurd rfl hkind
    · simp only [observes, decide_eq_true_eq] at ho
      simp [notify, ho, revealEntry, he, observes, mem_unobserve]
    · simp only [observes, decide_eq_true_eq] at ho
      simp [notify, ho, skillEntry, he, observes, mem_unobserve]
    · simp only [notify]
      rw [radialEntry_foldl _ now pg e he]
      simp only [observes]
      rw [List.any_eq_false]
      intro a ha
      rw [List.mem_filter] at ha
      intro hcontra
      have hmem : a ∈ pg.radialObserved.filter fun oc => oc.2 = e.target := by
        rw [List.mem_filter]
        exact ⟨ha.1, hcontra⟩
      simp [hmem] at ha
    · simp only [observes, decide_eq_true_eq] at ho
      simp [notify, ho, counterEntry, he, observes, mem_unobserve]

/-- A notification never starts the observation of an element. -/
theorem notify_observes_subset (pg : Page) (k : ObserverKind) (e : Entry) (now : ℚ)
    (kind : ObserverKind) (el : Element)
    (h : observes (notify pg k e now) kind el = true) : observes pg kind el = true := by
  by_cases he : e.isIntersecting = false
  · rwa [notify_not_intersecting pg k e now he] at h
  · rw [Bool.not_eq_false] at he
    cases k
    · by_cases hm : e.target ∈ pg.navObserved
      · cases kind <;> simpa [notify, hm, navEntry, he, observes] using h
      · simpa [notify, hm] using h
    · by_cases hm : e.target ∈ pg.revealObserved
      · cases kind <;> simp [notify, hm, revealEntry, he, observes, mem_unobserve] at h ⊢ <;>
          first | exact h | exact h.1
      · simpa [notify, hm] using h
    · by_cases hm : e.target ∈ pg.skillObserved
      · cases kind <;> simp [notify, hm, skillEntry, he, observes, mem_unobserve] at h ⊢ <;>
          first | exact h | exact h.1
      · simpa [notify, hm] using h
    · simp only [notify] at h
      rw [radialEntry_foldl _ now pg e he] at h
      cases kind
      · exact h
      · exact h
      · exact h
      · simp only [observes, List.any_eq_true] at h ⊢
        obtain ⟨x, hx, hx2⟩ := h
        exact ⟨x, (List.mem_filter.mp hx).1, hx2⟩
      · exact h
    · by_cases hm : e.target ∈ pg.counterObserved
      · cases kind <;> simp [notify, hm, counterEntry, he, observes, mem_unobserve] at h ⊢ <;>
          first | exact h | exact h.1
      · simpa [notify, hm] using h

theorem runTask_observes (numberToString : ℚ → String) (now : ℚ) (pg : Page) (t : FrameTask)
    (kind : ObserverKind) (el : Element) :
    observes (runTask numberToString now pg t) kind el = observes pg kind el := by
  cases t with
  | radialStep canvas cfg start =>
    simp only [runTask, radialStep]
    split <;> cases kind <;> rfl
  | counterStep n target decimal start =>
    simp only [runTask, counterStep]
    split
    · rfl
    · split
      · cases kind <;> rfl
      · split <;> cases kind <;> rfl

theorem runFrame_observes (numberToString : ℚ → String) (now : ℚ) (pg : Page)
    (kind : ObserverKind) (el : Element) :
    observes (runFrame numberToString now pg) kind el = observes pg kind el := by
  unfold runFrame
  have key : ∀ (ts : List FrameTask) (p : Page),
      observes (ts.foldl (runTask numberToString now) p) kind el = observes p kind el := by
    intro ts
    induction ts with
    | nil => intro p; rfl
    | cons t ts ih =>
      intro p
      rw [List.foldl_cons, ih, runTask_observes]
  rw [key]
  cases kind <;> rfl

/-- No event starts the observation of an element. -/
theorem pageStep_observes_subset (numberToString : ℚ → String) (pg : Page) (ev : PageEvent)
    (kind : ObserverKind) (el : Element)
    (h : observes pg kind el = false) :
    observes (pageStep numberToString pg ev) kind el = false := by
  cases ev with
  | notify k e now =>
    by_contra hc
    rw [Bool.not_eq_false] at hc
    have := notify_observes_subset pg k e now kind el hc
    rw [h] at this
    exact Bool.false_ne_true this
  | frame now =>
    simp only [pageStep]
    rw [runFrame_observes]
    exact h

theorem runEvents_observes_subset (numberToString : ℚ → String) (evs : List PageEvent)
    (pg : Page) (kind : ObserverKind) (el : Element) (h : observes pg kind el = false) :
    observes (runEvents numberToString pg evs) kind el = false := by
  induction evs generalizing pg with
  | nil => exact h
  | cons ev evs ih =>
    simp only [runEvents, List.foldl_cons]
    exact ih _ (pageStep_observes_subset numberToString pg ev kind el h)

theorem triggerCount_not_observed (numberToString : ℚ → String) (kind : ObserverKind)
    (el : Element) (evs : List PageEvent) (pg : Page) (h : observes pg kind el = false) :
    triggerCount numberToString kind el pg evs = 0 := by
  induction evs generalizing pg with
  | nil => rfl
  | cons ev evs ih =>
    have hnot : triggers pg kind el ev = false := by
      cases ev with
      | notify k e now => simp [triggers, h]
      | frame now => rfl
    simp only [triggerCount, hnot]
    rw [ih _ (pageStep_observes_subset numberToString pg ev kind el h)]
    simp

theorem triggerCount_le_one (numberToString : ℚ → String) (kind : ObserverKind)
    (hkind : kind ≠ .nav) (el : Element) (evs : List PageEvent) (pg : Page) :
    triggerCount numberToString kind el pg evs ≤ 1 := by
  induction evs generalizing pg with
  | nil => simp [triggerCount]
  | cons ev evs ih =>
    by_cases ht : triggers pg kind el ev = true
    · have hafter : observes (pageStep numberToString pg ev) kind el = false := by
        cases ev with
        | notify k e now =>
          simp only [triggers, Bool.and_eq_true, decide_eq_true_eq] at ht
          obtain ⟨⟨⟨hk, hel⟩, hint⟩, _⟩ := ht
          subst hk
          subst hel
          exact notify_unobserves pg k hkind e now hint
        | frame now => simp [triggers] at ht
      simp only [triggerCount, ht, if_true]
      rw [triggerCount_not_observed numberToString kind el evs _ hafter]
    · rw [Bool.not_eq_true] at ht
      simp only [triggerCount, ht]
      simpa using ih (pageStep numberToString pg ev)

/-- C6: for the reveal, skill-bar, radial-chart and counter observers, an
intersecting entry leaves its target unobserved (pending to triggered), an
element that is not observed stays so through every sequence of events, every
sequence of events triggers an element at most once, and an entry for an
element that is not observed leaves the whole page state as it is. -/
theorem one_shot_observers (numberToString : ℚ → String) (kind : ObserverKind)
    (hkind : kind ≠ .nav) (pg : Page) (el : Element) (evs : List PageEvent) :
    (∀ (e : Entry) (now : ℚ), e.isIntersecting = true →
      observes (notify pg kind e now) kind e.target = false) ∧
    (observes pg kind el = false →
      observes (runEvents numberToString pg evs) kind el = false) ∧
    triggerCount numberToString kind el pg evs ≤ 1 ∧
    (∀ (e : Entry) (now : ℚ), observes pg kind e.target = false → notify pg kind e now = pg) :=
  ⟨fun e now he => notify_unobserves pg kind hkind e now he,
   fun h => runEvents_observes_subset numberToString evs pg kind el h,
   triggerCount_le_one numberToString kind hkind el evs pg,
   fun e now ho => notify_not_observed pg kind e now ho⟩

theorem one_shot_observers_witness :
    ObserverKind.reveal ≠ ObserverKind.nav ∧
    observes (initReveal sampleDoc (Page.initial sampleDoc [])) .reveal revealBox = true ∧
    observes (notify (initReveal sampleDoc (Page.initial sampleDoc [])) .reveal
      ⟨revealBox, true⟩ 0) .reveal revealBox = false ∧
    triggerCount (fun _ => "") .reveal revealBox (initReveal sampleDoc (Page.initial sampleDoc []))
      [.notify .reveal ⟨revealBox, true⟩ 0, .notify .reveal ⟨revealBox, true⟩ 1] ≤ 1 :=
  have h := one_shot_observers (fun _ => "") .reveal (by decide)
    (initReveal sampleDoc (Page.initial sampleDoc [])) revealBox
    [.notify .reveal ⟨revealBox, true⟩ 0, .notify .reveal ⟨revealBox, true⟩ 1]
  ⟨by decide, by decide, h.1 ⟨revealBox, true⟩ 0 rfl, h.2.2.1⟩

/-! ### The nav observer -/

/-- C9 fails: after its first intersecting entry the section `about` is still
observed, and after `skills` has become the active section a later intersecting
entry of `about` changes the active links from `[linkSkills]` to `[linkAbout]`. -/
theorem nav_observer_not_one_shot :
    observes (notify (initNavbar sampleDoc (Page.initial sampleDoc [])) .nav
      ⟨sectionAbout, true⟩ 0) .nav sectionAbout = true ∧
    (notify (notify (initNavbar sampleDoc (Page.initial sampleDoc [])) .nav
      ⟨sectionAbout, true⟩ 0) .nav ⟨sectionSkills, true⟩ 1).activeLinks = [linkSkills] ∧
    (notify (notify (notify (initNavbar sampleDoc (Page.initial sampleDoc [])) .nav
      ⟨sectionAbout, true⟩ 0) .nav ⟨sectionSkills, true⟩ 1) .nav
      ⟨sectionAbout, true⟩ 2).activeLinks = [linkAbout] ∧
    (notify (notify (notify (initNavbar sampleDoc (Page.initial sampleDoc [])) .nav
      ⟨sectionAbout, true⟩ 0) .nav ⟨sectionSkills, true⟩ 1) .nav
      ⟨sectionAbout, true⟩ 2).activeLinks ≠
    (notify (notify (initNavbar sampleDoc (Page.initial sampleDoc [])) .nav
      ⟨sectionAbout, true⟩ 0) .nav ⟨sectionSkills, true⟩ 1).activeLinks := by
  refine ⟨by decide, by decide, by decide, by decide⟩

theorem notify_navObserved (pg : Page) (k : ObserverKind) (e : Entry) (now : ℚ) :
    (notify pg k e now).navObserved = pg.navObserved := by
  by_cases he : e.isIntersecting = false
  · rw [notify_not_intersecting pg k e now he]
  · rw [Bool.not_eq_false] at he
    cases k
    · by_cases hm : e.target ∈ pg.navObserved <;> simp [notify, hm, navEntry, he]
    · by_cases hm : e.target ∈ pg.revealObserved <;> simp [notify, hm, revealEntry, he]
    · by_cases hm : e.target ∈ pg.skillObserved <;> simp [notify, hm, skillEntry, he]
    · simp only [notify]
      rw [radialEntry_foldl _ now pg e he]
    · by_cases hm : e.target ∈ pg.counterObserved <;> simp [notify, hm, counterEntry, he]

theorem pageStep_nav_observes (numberToString : ℚ → String) (pg : Page) (ev : PageEvent)
    (el : Element) :
    observes (pageStep numberToString pg ev) .nav el = observes pg .nav el := by
  cases ev with
  | notify k e now =>
    simp only [pageStep, observes, notify_navObserved]
  | frame now =>
    simp only [pageStep]
    exact runFrame_observes numberToString now pg .nav el

theorem runEvents_nav_observes (numberToString : ℚ → String) (evs : List PageEvent) (pg : Page)
    (el : Element) :
    observes (runEvents numberToString pg evs) .nav el = observes pg .nav el := by
  induction evs generalizing pg with
  | nil => rfl
  | cons ev evs ih =>
    simp only [runEvents, List.foldl_cons]
    have := ih (pageStep numberToString pg ev)
    simp only [runEvents] at this
    rw [this, pageStep_nav_observes]

/-- C9 as amended: the nav observer never stops observing a section, whatever
events happen; every intersecting entry of an observed section, the first or a
later one, makes the active nav links exactly the nav links whose `href` is
`'#'` followed by the section's id; an entry that does not intersect changes
nothing. -/
theorem nav_observer_tracks (numberToString : ℚ → String) (pg : Page) (e : Entry) (now : ℚ)
    (evs : List PageEvent) (el : Element) :
    observes (runEvents numberToString pg evs) .nav el = observes pg .nav el ∧
    (notify pg .nav e now).navObserved = pg.navObserved ∧
    (e.isIntersecting = true → e.target ∈ pg.navObserved →
      (notify pg .nav e now).activeLinks =
        pg.navItems.filter fun l => l.href = some ("#" ++ e.target.id.getD "")) ∧
    (e.isIntersecting = false → notify pg .nav e now = pg) := by
  refine ⟨runEvents_nav_observes numberToString evs pg el, notify_navObserved pg .nav e now,
    ?_, notify_not_intersecting pg .nav e now⟩
  intro he hm
  simp [notify, hm, navEntry, he]

theorem nav_observer_tracks_witness :
    (⟨sectionAbout, true⟩ : Entry).isIntersecting = true ∧
    sectionAbout ∈ (initNavbar sampleDoc (Page.initial sampleDoc [])).navObserved ∧
    (notify (initNavbar sampleDoc (Page.initial sampleDoc [])) .nav
      ⟨sectionAbout, true⟩ 0).activeLinks =
      (initNavbar sampleDoc (Page.initial sampleDoc [])).navItems.filter
        fun l => l.href = some ("#" ++ sectionAbout.id.getD "") :=
  ⟨rfl, by decide,
    (nav_observer_tracks (fun _ => "") (initNavbar sampleDoc (Page.initial sampleDoc []))
      ⟨sectionAbout, true⟩ 0 [] sectionAbout).2.2.1 rfl (by decide)⟩

/-! ### Counters with a malformed target -/

theorem toFixed_nan (numberToString : ℚ → String) (decimal : JSNum) (f : Nat)
    (hf : fractionDigits decimal = some f) :
    toFixed numberToString .nan decimal = some "NaN" := by
  simp [toFixed, hf]

theorem counterStep_nan (numberToString : ℚ → String) (el : Nat) (decimal : JSNum)
    (start now : ℚ) (pg : Page) (f : Nat) (hf : fractionDigits decimal = some f) :
    ∃ rest, (counterStep numberToString el .nan decimal start now pg).writes =
      pg.writes ++ .setText el "NaN" :: rest := by
  unfold counterStep
  simp only [JSNum.scale, toFixed_nan numberToString decimal f hf]
  by_cases hlt : progress now start 1500 < 1
  · exact ⟨[], by simp only [hlt, if_true]⟩
  · exact ⟨[.setText el "NaN"], by simp [hlt]⟩

theorem parseFloat_abc : parseFloat "abc" = .nan := by decide

theorem parseInt_zero : parseInt "0" = .fin 0 := by
  simp [parseInt, isWhiteSpace, takeSign, digitsValue, hexDigit]

theorem fractionDigits_zero : fractionDigits (.fin 0) = some 0 := by
  simp [fractionDigits]

theorem notify_counterAbc :
    notify (initCounters sampleDoc (Page.initial sampleDoc [])) .counter ⟨counterAbc, true⟩ 0 =
      { initCounters sampleDoc (Page.initial sampleDoc []) with
        counterObserved := []
        frameQueue := [.counterStep 5 .nan (.fin 0) 0] } := by
  have hm : counterAbc ∈ (initCounters sampleDoc (Page.initial sampleDoc [])).counterObserved := by
    decide
  have hobs : unobserve (initCounters sampleDoc (Page.initial sampleDoc [])).counterObserved
      counterAbc = [] := by decide
  have hq : (initCounters sampleDoc (Page.initial sampleDoc [])).frameQueue = [] := rfl
  have ht : counterAbc.dataTarget.getD "undefined" = "abc" := rfl
  have hd : counterAbc.dataDecimal.getD "0" = "0" := rfl
  have hn : counterAbc.node = 5 := rfl
  simp only [notify, hm, if_true, counterEntry, Bool.not_true, hobs, hq, ht, hd, hn,
    parseFloat_abc, parseInt_zero, List.nil_append]
  rfl

/-- C10 fails: for the counter `<span data-target="abc">` the intersecting
entry schedules a step (with target `NaN`), and the frame that runs the step
writes the text `"NaN"`. -/
theorem counter_malformed_runs :
    parseFloat "abc" = .nan ∧
    (notify (initCounters sampleDoc (Page.initial sampleDoc [])) .counter
      ⟨counterAbc, true⟩ 0).frameQueue = [.counterStep 5 .nan (.fin 0) 0] ∧
    ∀ numberToString : ℚ → String,
      textOf (runFrame numberToString 16
        (notify (initCounters sampleDoc (Page.initial sampleDoc [])) .counter
          ⟨counterAbc, true⟩ 0)) 5 = some "NaN" := by
  refine ⟨parseFloat_abc, by rw [notify_counterAbc], ?_⟩
  intro numberToString
  rw [notify_counterAbc]
  have hp : progress 16 0 1500 < 1 := by
    norm_num [progress, clamp]
  simp only [runFrame, List.foldl_cons, List.foldl_nil, runTask, counterStep, JSNum.scale,
    toFixed_nan numberToString (.fin 0) 0 fractionDigits_zero, hp, if_true]
  simp [textOf, initCounters, Page.initial]

/-- C10 as amended: an element without a `data-target` attribute is not
observed by the counter observer, so no sequence of events triggers it and an
entry for it changes nothing; for an observed element whose `data-target` does
not parse to a number, the intersecting entry schedules a step with target
`NaN`, and every run of that step with a decimal count that `toFixed` accepts
writes the text `"NaN"`. -/
theorem counter_malformed (numberToString : ℚ → String) (doc : List Element) (pg : Page)
    (el : Element) (now : ℚ) :
    (el.dataTarget = none →
      (∀ (b : Bool), notify (initCounters doc pg) .counter ⟨el, b⟩ now = initCounters doc pg) ∧
      ∀ evs, triggerCount numberToString .counter el (initCounters doc pg) evs = 0) ∧
    (∀ s, el.dataTarget = some s → parseFloat s = .nan → el ∈ pg.counterObserved →
      (notify pg .counter ⟨el, true⟩ now).frameQueue = pg.frameQueue ++
        [.counterStep el.node .nan (parseInt (el.dataDecimal.getD "0")) now] ∧
      ∀ (f : Nat) (later : ℚ) (p : Page),
        fractionDigits (parseInt (el.dataDecimal.getD "0")) = some f →
        ∃ rest, (counterStep numberToString el.node .nan (parseInt (el.dataDecimal.getD "0"))
          now later p).writes = p.writes ++ .setText el.node "NaN" :: rest) := by
  constructor
  · intro hnone
    have hobs : observes (initCounters doc pg) .counter el = false := by
      simp [observes, initCounters, hnone]
    exact ⟨fun b => notify_not_observed (initCounters doc pg) .counter ⟨el, b⟩ now hobs,
      fun evs => triggerCount_not_observed numberToString .counter el evs _ hobs⟩
  · intro s hs hnan hmem
    constructor
    · simp [notify, hmem, counterEntry, hs, hnan]
    · intro f later p hf
      exact counterStep_nan numberToString el.node _ now later p f hf

theorem counter_malformed_witness :
    counterAbc.dataTarget = some "abc" ∧ parseFloat "abc" = .nan ∧
    counterAbc ∈ (initCounters sampleDoc (Page.initial sampleDoc [])).counterObserved ∧
    (notify (initCounters sampleDoc (Page.initial sampleDoc [])) .counter
      ⟨counterAbc, true⟩ 0).frameQueue =
      (initCounters sampleDoc (Page.initial sampleDoc [])).frameQueue ++
        [.counterStep counterAbc.node .nan (parseInt (counterAbc.dataDecimal.getD "0")) 0] ∧
    (plainElement 9 "span").dataTarget = none ∧
    notify (initCounters sampleDoc (Page.initial sampleDoc [])) .counter
      ⟨plainElement 9 "span", true⟩ 0 = initCounters sampleDoc (Page.initial sampleDoc []) :=
  have h := counter_malformed (fun _ => "") sampleDoc (initCounters sampleDoc
    (Page.initial sampleDoc [])) counterAbc 0
  have h2 := counter_malformed (fun _ => "") sampleDoc (Page.initial sampleDoc [])
    (plainElement 9 "span") 0
  ⟨rfl, parseFloat_abc, by decide, (h.2 "abc" rfl parseFloat_abc (by decide)).1, rfl,
    (h2.1 rfl).1 true⟩

/-! ### Theme toggle: the active theme -/

theorem themeClick_dataTheme (pg : Page) :
    (themeClick pg).dataTheme = some "dark" ∨ (themeClick pg).dataTheme = some "light" := by
  by_cases h : pg.dataTheme = some "dark"
  · right
    simp [themeClick, applyTheme, h]
  · left
    simp [themeClick, applyTheme, h]

theorem themeClicks_dataTheme (n : Nat) (pg : Page)
    (h : pg.dataTheme = some "dark" ∨ pg.dataTheme = some "light") :
    (themeClicks n pg).dataTheme = some "dark" ∨ (themeClicks n pg).dataTheme = some "light" := by
  induction n generalizing pg with
  | zero => exact h
  | succ n ih => exact ih (themeClick pg) (themeClick_dataTheme pg)

/-- C11 fails: with `"blue"` stored under `'ak-theme'`, `initThemeToggle` makes
the active theme `"blue"`, which is neither `"dark"` nor `"light"`. -/
theorem theme_not_enum :
    (themeClicks 0 (initThemeToggle (Page.initial [] [("ak-theme", "blue")]))).dataTheme =
      some "blue" ∧
    (themeClicks 0 (initThemeToggle (Page.initial [] [("ak-theme", "blue")]))).dataTheme ≠
      some "dark" ∧
    (themeClicks 0 (initThemeToggle (Page.initial [] [("ak-theme", "blue")]))).dataTheme ≠
      some "light" := by
  refine ⟨by decide, by decide, by decide⟩

/-- C11 as amended: after `initThemeToggle` and at least one click the active
theme is `"dark"` or `"light"`, whatever was stored; before the first click it
is `"dark"` when the entry is absent or empty and the stored string otherwise,
so with `"dark"` or `"light"` stored (or nothing) it is one of the two after
any number of clicks. -/
theorem theme_enum_after_click (doc : List Element) (storage : List (String × String))
    (n : Nat) :
    (0 < n →
      (themeClicks n (initThemeToggle (Page.initial doc storage))).dataTheme = some "dark" ∨
      (themeClicks n (initThemeToggle (Page.initial doc storage))).dataTheme = some "light") ∧
    (getItem storage "ak-theme" = none ∨ getItem storage "ak-theme" = some "" →
      (initThemeToggle (Page.initial doc storage)).dataTheme = some "dark") ∧
    (∀ saved, getItem storage "ak-theme" = some saved → saved ≠ "" →
      (initThemeToggle (Page.initial doc storage)).dataTheme = some saved) ∧
    (getItem storage "ak-theme" = none ∨ getItem storage "ak-theme" = some "" ∨
        getItem storage "ak-theme" = some "dark" ∨ getItem storage "ak-theme" = some "light" →
      (themeClicks n (initThemeToggle (Page.initial doc storage))).dataTheme = some "dark" ∨
      (themeClicks n (initThemeToggle (Page.initial doc storage))).dataTheme = some "light") := by
  have hempty : getItem storage "ak-theme" = none ∨ getItem storage "ak-theme" = some "" →
      (initThemeToggle (Page.initial doc storage)).dataTheme = some "dark" := by
    intro h
    have hs : getItem (Page.initial doc storage).storage "ak-theme" =
        getItem storage "ak-theme" := rfl
    rcases h with h | h
    · simp [initThemeToggle, applyTheme, hs, h]
    · simp [initThemeToggle, applyTheme, hs, h]
  have hstored : ∀ saved, getItem storage "ak-theme" = some saved → saved ≠ "" →
      (initThemeToggle (Page.initial doc storage)).dataTheme = some saved :=
    fun saved h hs => initThemeToggle_stored (Page.initial doc storage) saved h hs
  refine ⟨?_, hempty, hstored, ?_⟩
  · intro hn
    obtain ⟨m, rfl⟩ : ∃ m, n = m + 1 := ⟨n - 1, by omega⟩
    exact themeClicks_dataTheme m _ (themeClick_dataTheme _)
  · intro h
    apply themeClicks_dataTheme
    rcases h with h | h | h | h
    · exact Or.inl (hempty (Or.inl h))
    · exact Or.inl (hempty (Or.inr h))
    · exact Or.inl (hstored "dark" h (by decide))
    · exact Or.inr (hstored "light" h (by decide))

theorem theme_enum_after_click_witness :
    0 < 1 ∧
    ((themeClicks 1 (initThemeToggle (Page.initial [] [("ak-theme", "blue")]))).dataTheme =
        some "dark" ∨
      (themeClicks 1 (initThemeToggle (Page.initial [] [("ak-theme", "blue")]))).dataTheme =
        some "light") ∧
    getItem [("ak-theme", "light")] "ak-theme" = some "light" ∧
    ((themeClicks 3 (initThemeToggle (Page.initial [] [("ak-theme", "light")]))).dataTheme =
        some "dark" ∨
      (themeClicks 3 (initThemeToggle (Page.initial [] [("ak-theme", "light")]))).dataTheme =
        some "light") :=
  ⟨by decide, (theme_enum_after_click [] [("ak-theme", "blue")] 1).1 (by decide), by decide,
    (theme_enum_after_click [] [("ak-theme", "light")] 3).2.2.2
      (Or.inr (Or.inr (Or.inr (by decide))))⟩

/-! ### Mouse parallax -/

theorem mousemove_bounded (clientX clientY w h : ℚ) (st : Parallax) (hst : st.bounded)
    (hev : (HeroEvent.mousemove clientX clientY w h).inWindow) :
    (mousemove clientX clientY w h st).bounded := by
  obtain ⟨hw, hh, hx0, hxw, hy0, hyh⟩ := hev
  obtain ⟨_, _, htx, hty, hry, hrx⟩ := hst
  have hx1 : 0 ≤ clientX / w := div_nonneg hx0 hw.le
  have hx2 : clientX / w ≤ 1 := by rw [div_le_iff₀ hw]; linarith
  have hy1 : 0 ≤ clientY / h := div_nonneg hy0 hh.le
  have hy2 : clientY / h ≤ 1 := by rw [div_le_iff₀ hh]; linarith
  refine ⟨⟨?_, ?_⟩, ⟨?_, ?_⟩, htx, hty, hry, hrx⟩ <;> simp only [mousemove] <;> linarith

theorem animate_bounded (st : Parallax) (hst : st.bounded) : (animate st).bounded := by
  obtain ⟨⟨hmx1, hmx2⟩, ⟨hmy1, hmy2⟩, ⟨htx1, htx2⟩, ⟨hty1, hty2⟩, _, _⟩ := hst
  refine ⟨⟨hmx1, hmx2⟩, ⟨hmy1, hmy2⟩, ⟨?_, ?_⟩, ⟨?_, ?_⟩, ⟨?_, ?_⟩, ⟨?_, ?_⟩⟩ <;>
    simp only [animate] <;> linarith

theorem heroRun_bounded (evs : List HeroEvent) (st : Parallax) (hst : st.bounded)
    (hevs : ∀ ev ∈ evs, ev.inWindow) : (heroRun st evs).bounded := by
  induction evs generalizing st with
  | nil => exact hst
  | cons ev evs ih =>
    simp only [heroRun, List.foldl_cons]
    apply ih
    · cases ev with
      | mousemove clientX clientY w h =>
        exact mousemove_bounded clientX clientY w h st hst (hevs _ (List.mem_cons_self _ _))
      | animate => exact animate_bounded st hst
    · intro e he
      exact hevs e (List.mem_cons_of_mem _ he)

theorem start_bounded : Parallax.start.bounded := by
  simp only [Parallax.bounded, Parallax.start]
  norm_num

/-- C12: starting from `targetX = targetY = 0`, after any sequence of frames and
of pointer events with `0 ≤ clientX ≤ W`, `0 ≤ clientY ≤ H` and `W, H > 0`, the
values `mouseX`, `mouseY`, `targetX` and `targetY` lie in `[-1, 1]`, the yaw
`targetX * 0.25` in `[-0.25, 0.25]` and the pitch `-targetY * 0.12` in
`[-0.12, 0.12]`; a pointer event sets `mouseX = (clientX / W - 0.5) * 2` and
`mouseY = (clientY / H - 0.5) * 2`, a frame adds `(mouse - target) * 0.04` to
the targets. -/
theorem parallax_bounded (evs : List HeroEvent) (hevs : ∀ ev ∈ evs, ev.inWindow) :
    (-1 ≤ (heroRun Parallax.start evs).mouseX ∧ (heroRun Parallax.start evs).mouseX ≤ 1) ∧
    (-1 ≤ (heroRun Parallax.start evs).mouseY ∧ (heroRun Parallax.start evs).mouseY ≤ 1) ∧
    (-1 ≤ (heroRun Parallax.start evs).targetX ∧ (heroRun Parallax.start evs).targetX ≤ 1) ∧
    (-1 ≤ (heroRun Parallax.start evs).targetY ∧ (heroRun Parallax.start evs).targetY ≤ 1) ∧
    (-(25 / 100) ≤ (heroRun Parallax.start evs).rotationY ∧
      (heroRun Parallax.start evs).rotationY ≤ 25 / 100) ∧
    (-(12 / 100) ≤ (heroRun Parallax.start evs).rotationX ∧
      (heroRun Parallax.start evs).rotationX ≤ 12 / 100) ∧
    (∀ (st : Parallax) (clientX clientY w h : ℚ),
      (mousemove clientX clientY w h st).mouseX = (clientX / w - 1 / 2) * 2 ∧
      (mousemove clientX clientY w h st).mouseY = (clientY / h - 1 / 2) * 2) ∧
    (∀ st : Parallax,
      (animate st).targetX = st.targetX + (st.mouseX - st.targetX) * (4 / 100) ∧
      (animate st).targetY = st.targetY + (st.mouseY - st.targetY) * (4 / 100) ∧
      (animate st).rotationY = (animate st).targetX * (25 / 100) ∧
      (animate st).rotationX = -(animate st).targetY * (12 / 100)) := by
  obtain ⟨h1, h2, h3, h4, h5, h6⟩ := heroRun_bounded evs Parallax.start start_bounded hevs
  exact ⟨h1, h2, h3, h4, h5, h6, fun _ _ _ _ _ => ⟨rfl, rfl⟩, fun _ => ⟨rfl, rfl, rfl, rfl⟩⟩

theorem parallax_bounded_witness :
    (∀ ev ∈ [HeroEvent.mousemove 200 0 200 100, HeroEvent.animate, HeroEvent.animate],
      ev.inWindow) ∧
    (heroRun Parallax.start
      [HeroEvent.mousemove 200 0 200 100, HeroEvent.animate, HeroEvent.animate]).targetX ≤ 1 ∧
    -(12 / 100) ≤ (heroRun Parallax.start
      [HeroEvent.mousemove 200 0 200 100, HeroEvent.animate, HeroEvent.animate]).rotationX :=
  have hevs : ∀ ev ∈ [HeroEvent.mousemove 200 0 200 100, HeroEvent.animate, HeroEvent.animate],
      ev.inWindow := by
    intro ev hev
    simp only [List.mem_cons, List.mem_singleton, List.not_mem_nil, or_false] at hev
    rcases hev with rfl | rfl | rfl
    · simp only [HeroEvent.inWindow]; norm_num
    · trivial
    · trivial
  have h := parallax_bounded _ hevs
  ⟨hevs, h.2.2.1.2, h.2.2.2.2.2.1.1⟩

/-! ### Contact form: the address test -/

theorem matchSeq_iff (p q : List Char → Bool) (cs : List Char) :
    matchSeq p q cs = true ↔ ∃ a b, cs = a ++ b ∧ p a = true ∧ q b = true := by
  unfold matchSeq
  rw [List.any_eq_true]
  constructor
  · rintro ⟨i, _, hi⟩
    rw [Bool.and_eq_true] at hi
    exact ⟨cs.take i, cs.drop i, (List.take_append_drop i cs).symm, hi.1, hi.2⟩
  · rintro ⟨a, b, rfl, ha, hb⟩
    refine ⟨a.length, ?_, ?_⟩
    · rw [List.mem_range, List.length_append]
      omega
    · simp [ha, hb]

theorem matchChar_iff (c : Char) (cs : List Char) : matchChar c cs = true ↔ cs = [c] := by
  simp [matchChar]

theorem matchClassPlus_iff (cls : Char → Bool) (cs : List Char) :
    matchClassPlus cls cs = true ↔ cs ≠ [] ∧ ∀ x ∈ cs, cls x = true := by
  simp [matchClassPlus]

theorem notSpaceNorAt_iff (c : Char) :
    notSpaceNorAt c = true ↔ isWhiteSpace c = false ∧ c ≠ '@' := by
  simp [notSpaceNorAt]

/-- The regular expression in words: the string is `a @ b . c` with `a`, `b`,
`c` non-empty runs of characters that are neither white space nor `@`. -/
theorem emailRegexTest_iff (email : String) :
    emailRegexTest email = true ↔
      ∃ a b c, email.toList = a ++ '@' :: (b ++ '.' :: c) ∧
        matchClassPlus notSpaceNorAt a = true ∧ matchClassPlus notSpaceNorAt b = true ∧
        matchClassPlus notSpaceNorAt c = true := by
  unfold emailRegexTest
  rw [matchSeq_iff]
  constructor
  · rintro ⟨a, r1, h, ha, hr1⟩
    rw [matchSeq_iff] at hr1
    obtain ⟨x, r2, rfl, hx, hr2⟩ := hr1
    rw [matchChar_iff] at hx
    rw [matchSeq_iff] at hr2
    obtain ⟨b, r3, rfl, hb, hr3⟩ := hr2
    rw [matchSeq_iff] at hr3
    obtain ⟨y, c, rfl, hy, hc⟩ := hr3
    rw [matchChar_iff] at hy
    subst hx
    subst hy
    exact ⟨a, b, c, by simpa using h, ha, hb, hc⟩
  · rintro ⟨a, b, c, h, ha, hb, hc⟩
    refine ⟨a, '@' :: (b ++ '.' :: c), h, ha, ?_⟩
    rw [matchSeq_iff]
    refine ⟨['@'], b ++ '.' :: c, rfl, (matchChar_iff _ _).mpr rfl, ?_⟩
    rw [matchSeq_iff]
    refine ⟨b, '.' :: c, rfl, hb, ?_⟩
    rw [matchSeq_iff]
    exact ⟨['.'], c, rfl, (matchChar_iff _ _).mpr rfl, hc⟩

theorem takeWhile_append_stop (p : Char → Bool) (a : List Char) (c : Char) (d : List Char)
    (ha : ∀ x ∈ a, p x = true) (hc : p c = false) :
    (a ++ c :: d).takeWhile p = a ∧ (a ++ c :: d).dropWhile p = c :: d := by
  induction a with
  | nil => simp [List.takeWhile, List.dropWhile, hc]
  | cons x a ih =>
    have hx : p x = true := ha x (List.mem_cons_self _ _)
    have ih' := ih (fun y hy => ha y (List.mem_cons_of_mem _ hy))
    simp [List.takeWhile, List.dropWhile, hx, ih'.1, ih'.2]

theorem dropWhile_head (p : Char → Bool) (l : List Char) :
    l.dropWhile p = [] ∨ ∃ c r, l.dropWhile p = c :: r ∧ p c = false := by
  induction l with
  | nil => left; rfl
  | cons x l ih =>
    by_cases hx : p x = true
    · simpa [List.dropWhile, hx] using ih
    · right
      rw [Bool.not_eq_true] at hx
      exact ⟨x, l, by simp [List.dropWhile, hx], hx⟩

theorem split_at_get (d : List Char) (k : Nat) (c : Char) (h : d.get? k = some c) :
    d = d.take k ++ c :: d.drop (k + 1) := by
  induction d generalizing k with
  | nil => simp at h
  | cons x d ih =>
    cases k with
    | zero =>
      simp at h
      simp [h]
    | succ k =>
      simp at h
      have := ih k (by simpa using h)
      simp only [List.take_succ_cons, List.drop_succ_cons, List.cons_append]
      rw [← this]

theorem get?_append_length (b : List Char) (x : Char) (c : List Char) :
    (b ++ x :: c).get? b.length = some x := by
  induction b with
  | nil => rfl
  | cons y b ih => simpa using ih

theorem count_at_run (a : List Char) (ha : ∀ x ∈ a, notSpaceNorAt x = true) :
    a.count '@' = 0 := by
  rw [List.count_eq_zero]
  intro hmem
  have := (notSpaceNorAt_iff _).mp (ha _ hmem)
  exact this.2 rfl

theorem emailShape_of_parts (a b c : List Char)
    (ha : matchClassPlus notSpaceNorAt a = true) (hb : matchClassPlus notSpaceNorAt b = true)
    (hc : matchClassPlus notSpaceNorAt c = true) :
    emailShape (a ++ '@' :: (b ++ '.' :: c)) = true := by
  rw [matchClassPlus_iff] at ha hb hc
  obtain ⟨ha0, ha⟩ := ha
  obtain ⟨hb0, hb⟩ := hb
  obtain ⟨hc0, hc⟩ := hc
  have hstop := takeWhile_append_stop (fun x => decide (x ≠ '@')) a '@' (b ++ '.' :: c)
    (fun x hx => by simpa using ((notSpaceNorAt_iff x).mp (ha x hx)).2) (by simp)
  have hws : ∀ x ∈ a ++ '@' :: (b ++ '.' :: c), isWhiteSpace x = false := by
    intro x hx
    simp only [List.mem_append, List.mem_cons] at hx
    rcases hx with hx | rfl | hx | rfl | hx
    · exact ((notSpaceNorAt_iff x).mp (ha x hx)).1
    · decide
    · exact ((notSpaceNorAt_iff x).mp (hb x hx)).1
    · decide
    · exact ((notSpaceNorAt_iff x).mp (hc x hx)).1
  have hcount : (a ++ '@' :: (b ++ '.' :: c)).count '@' = 1 := by
    rw [List.count_append, List.count_cons, List.count_append, List.count_cons,
      count_at_run a ha, count_at_run b hb, count_at_run c hc]
    decide
  have hblen : 0 < b.length := List.length_pos.mpr hb0
  have hclen : 0 < c.length := List.length_pos.mpr hc0
  unfold emailShape
  rw [hstop.1, hstop.2]
  simp only [Bool.and_eq_true, List.all_eq_true, decide_eq_true_eq, List.any_eq_true,
    List.mem_range, List.drop_succ_cons, List.drop_zero]
  refine ⟨⟨⟨fun x hx => by simp [hws x hx], hcount⟩, ha0⟩, b.length, ?_, ⟨hblen, ?_⟩, ?_⟩
  · simp only [List.length_append, List.length_cons]
    omega
  · simp only [List.length_append, List.length_cons]
    omega
  · exact get?_append_length b '.' c

theorem parts_of_emailShape (cs : List Char) (h : emailShape cs = true) :
    ∃ a b c, cs = a ++ '@' :: (b ++ '.' :: c) ∧
      matchClassPlus notSpaceNorAt a = true ∧ matchClassPlus notSpaceNorAt b = true ∧
      matchClassPlus notSpaceNorAt c = true := by
  unfold emailShape at h
  simp only [Bool.and_eq_true, List.all_eq_true, decide_eq_true_eq, List.any_eq_true,
    List.mem_range] at h
  obtain ⟨⟨⟨hws, hcount⟩, ha0⟩, k, _, ⟨hk0, hk1⟩, hk⟩ := h
  have hsplit : cs = cs.takeWhile (fun x => decide (x ≠ '@')) ++
      cs.dropWhile (fun x => decide (x ≠ '@')) := (List.takeWhile_append_dropWhile _ cs).symm
  have htake : ∀ x ∈ cs.takeWhile (fun x => decide (x ≠ '@')), x ≠ '@' := by
    intro x hx
    simpa using List.mem_takeWhile_imp hx
  have hcountA : (cs.takeWhile (fun x => decide (x ≠ '@'))).count '@' = 0 := by
    rw [List.count_eq_zero]
    intro hmem
    exact htake _ hmem rfl
  rcases dropWhile_head (fun x => decide (x ≠ '@')) cs with hnil | ⟨x, d, hd, hx⟩
  · rw [hnil] at hsplit
    rw [List.append_nil] at hsplit
    rw [hsplit, hcountA] at hcount
    exact absurd hcount (by decide)
  · have hx' : x = '@' := by simpa using hx
    subst hx'
    rw [hd] at hsplit hk hk1
    simp only [List.drop_succ_cons, List.drop_zero] at hk hk1
    have hcountD : d.count '@' = 0 := by
      have h1 := hcount
      rw [hsplit, List.count_append, hcountA, List.count_cons] at h1
      simpa using h1
    have hD := split_at_get d k '.' hk
    have hmemD : ∀ y ∈ d, notSpaceNorAt y = true := by
      intro y hy
      rw [notSpaceNorAt_iff]
      refine ⟨?_, ?_⟩
      · have : y ∈ cs := by
          rw [hsplit]
          exact List.mem_append_right _ (List.mem_cons_of_mem _ hy)
        simpa using hws y this
      · intro hy'
        subst hy'
        exact (List.count_eq_zero.mp hcountD) hy
    refine ⟨cs.takeWhile (fun x => decide (x ≠ '@')), d.take k, d.drop (k + 1), ?_, ?_, ?_, ?_⟩
    · rw [← hD]
      exact hsplit
    · rw [matchClassPlus_iff]
      refine ⟨ha0, ?_⟩
      intro y hy
      rw [notSpaceNorAt_iff]
      refine ⟨?_, htake y hy⟩
      have : y ∈ cs := by
        rw [hsplit]
        exact List.mem_append_left _ hy
      simpa using hws y this
    · rw [matchClassPlus_iff]
      refine ⟨?_, fun y hy => hmemD y (List.mem_of_mem_take hy)⟩
      intro hnil
      have : (d.take k).length = 0 := by rw [hnil]; rfl
      rw [List.length_take] at this
      omega
    · rw [matchClassPlus_iff]
      refine ⟨?_, fun y hy => hmemD y (List.mem_of_mem_drop hy)⟩
      intro hnil
      have : (d.drop (k + 1)).length = 0 := by rw [hnil]; rfl
      rw [List.length_drop] at this
      omega

/-- The regular expression of line 578 accepts exactly the addresses of the
shape the specification describes. -/
theorem emailRegexTest_eq_shape (email : String) :
    emailRegexTest email = emailShape email.toList := by
  rw [Bool.eq_iff_iff, emailRegexTest_iff]
  constructor
  · rintro ⟨a, b, c, h, ha, hb, hc⟩
    rw [h]
    exact emailShape_of_parts a b c ha hb hc
  · exact parts_of_emailShape _

theorem showToast_no_reset (hasToast : Bool) (msg : String) :
    FormEffect.formReset ∉ showToast hasToast msg ∧
      FormEffect.successReveal ∉ showToast hasToast msg := by
  cases hasToast <;> simp [showToast]

/-- C13: the submit handler resets the form exactly when the trimmed name, email
and message are non-empty and the trimmed email has no white space, exactly one
`@` with a non-empty part before it, and after the `@` a `.` that is neither
first nor last; then it reveals the success banner, resets the form and shows
the sent toast; in every other case its only effects are those of one of the
two warning toasts, with no reset and no reveal. -/
theorem submit_success_iff (form : ContactForm) :
    (FormEffect.formReset ∈ submit form ↔ formValid form = true) ∧
    (formValid form = true →
      submit form = .preventDefault :: ((if form.hasSuccess then [.successReveal] else []) ++
        [.formReset] ++ showToast form.hasToast "🚀 Message sent!" ++
        [.successHideAfter 5000])) ∧
    (formValid form = false →
      (submit form = .preventDefault :: showToast form.hasToast "⚠️ Please fill in all fields." ∨
        submit form =
          .preventDefault :: showToast form.hasToast "⚠️ Enter a valid email address.") ∧
      FormEffect.formReset ∉ submit form ∧ FormEffect.successReveal ∉ submit form) ∧
    (∀ msg, showToast true msg = [.toastText msg, .toastShow, .toastHideAfter 3500]) := by
  have hvalid : formValid form = true ↔
      ¬(jsTrim form.name = "" ∨ jsTrim form.email = "" ∨ jsTrim form.message = "") ∧
        emailRegexTest (jsTrim form.email) = true := by
    unfold formValid
    rw [emailRegexTest_eq_shape]
    simp only [Bool.and_eq_true, decide_eq_true_eq, not_or, and_assoc]
  have hok : formValid form = true →
      submit form = .preventDefault :: ((if form.hasSuccess then [.successReveal] else []) ++
        [.formReset] ++ showToast form.hasToast "🚀 Message sent!" ++
        [.successHideAfter 5000]) := by
    intro h
    obtain ⟨h1, h2⟩ := hvalid.mp h
    unfold submit
    simp only [h1, h2, if_false, Bool.not_true, Bool.false_eq_true]
  have hbad : formValid form = false →
      (submit form = .preventDefault :: showToast form.hasToast "⚠️ Please fill in all fields." ∨
        submit form =
          .preventDefault :: showToast form.hasToast "⚠️ Enter a valid email address.") := by
    intro h
    by_cases h1 : jsTrim form.name = "" ∨ jsTrim form.email = "" ∨ jsTrim form.message = ""
    · left
      unfold submit
      simp only [h1, if_true]
    · right
      have h2 : emailRegexTest (jsTrim form.email) = false := by
        by_contra hc
        rw [Bool.not_eq_false] at hc
        rw [hvalid.mpr ⟨h1, hc⟩] at h
        exact Bool.noConfusion h
      unfold submit
      simp only [h1, h2, if_false, Bool.not_false, if_true]
  have hnone : formValid form = false →
      FormEffect.formReset ∉ submit form ∧ FormEffect.successReveal ∉ submit form := by
    intro h
    rcases hbad h with hs | hs <;> rw [hs] <;>
      simp only [List.mem_cons, not_or] <;>
      exact ⟨⟨by decide, (showToast_no_reset _ _).1⟩, ⟨by decide, (showToast_no_reset _ _).2⟩⟩
  refine ⟨⟨?_, ?_⟩, hok, fun h => ⟨hbad h, hnone h⟩, fun _ => rfl⟩
  · intro hmem
    by_contra hv
    rw [Bool.not_eq_true] at hv
    exact (hnone hv).1 hmem
  · intro h
    rw [hok h]
    simp

theorem submit_success_iff_witness :
    formValid ⟨" Ann ", "ann@x.org ", "hi", true, true⟩ = true ∧
    submit ⟨" Ann ", "ann@x.org ", "hi", true, true⟩ =
      [.preventDefault, .successReveal, .formReset, .toastText "🚀 Message sent!", .toastShow,
        .toastHideAfter 3500, .successHideAfter 5000] ∧
    formValid ⟨"Ann", "ann@x", "hi", true, true⟩ = false ∧
    FormEffect.formReset ∉ submit ⟨"Ann", "ann@x", "hi", true, true⟩ :=
  ⟨by decide,
    (submit_success_iff ⟨" Ann ", "ann@x.org ", "hi", true, true⟩).2.1 (by decide),
    by decide,
    ((submit_success_iff ⟨"Ann", "ann@x", "hi", true, true⟩).2.2.1 (by decide)).2.1⟩
end Portfolio
